import Mathlib

/-!
# Terrain-Generator: the chunk / area streaming manager of `src/src/world.h`

A shallow embedding of the world manager (`InfinityWorld`, `Area`, `ChunkNode`)
and of the operations on it, followed by theorems about them.

Conventions of the embedding:

* C `float` / `double` values are exact rationals (`ℚ`): rounding, infinities and
  NaN are not modelled.  The literals `0.001f`, `0.01f`, `0.00009f` are the
  rationals they denote in decimal.  The one exception is the float product
  `location * (CHUNK_SIZE - 1)` of `LoadChunkNode`, which the program converts to an
  `int`: there the rounding to float32 decides which integer comes out, and it is
  modelled (`roundFloat32`).
* `(int) f` on a float is truncation toward zero (`castInt`); `int` and `size_t`
  are unbounded (`Int`, `Nat`).  Converting a float outside the range of `int` has
  no defined behaviour in C; the model continues with the truncated value.
* A pointer `T*` is an `Option T`: `none` is a pointer that must not be
  dereferenced (NULL, or an indeterminate slot of a fresh allocation).  The
  array `Area** areas` is the list of its slots, one per allocated element.
* An operation that would dereference such a pointer, or index the array outside
  its allocation, has no defined behaviour and returns `none`.
* A function that writes through a pointer argument returns the pointee as it leaves
  it: `UnloadChunkNode` the node, `UnloadArea` the area; the caller's slot that holds
  the pointer is updated with it.
* The process-wide state outside the world struct is `Globals`: the seed of the
  noise generator and the log of the resources handed back to raylib / `free`.
* The per-node function pointers `Load`, `Unload`, `CalcHeight` are assigned once,
  in `CreateChunkNode`, to `LoadChunkNode`, `UnloadChunkNode`,
  `CalcHeightChunkNode`; calls through them are calls of these functions.
-/

namespace TerrainGenerator

/-! ## Constants of `world.h` -/

def LANDSCAPE_NOISE_SMALL : ℚ := 1 / 1000
def LANDSCAPE_NOISE_MEDIUM : ℚ := 1 / 100
def LANDSCAPE_NOISE_BIG : ℚ := 9 / 100000
def CHUNK_SIZE : Nat := 100
def CHUNK_TO_MESH_SCALE : Nat := 5
def FAR_AREA_LIMIT_DISTANCE : Nat := 5

/-! ## raylib value types -/

structure Vector2 where
  x : ℚ
  y : ℚ
deriving DecidableEq, Repr

structure Vector3 where
  x : ℚ
  y : ℚ
  z : ℚ
deriving DecidableEq, Repr

structure Color where
  r : Nat
  g : Nat
  b : Nat
  a : Nat
deriving DecidableEq, Repr

def BLACK : Color := ⟨0, 0, 0, 255⟩
def WHITE : Color := ⟨255, 255, 255, 255⟩

/-- A raylib image: its size and its pixels, row by row. -/
structure Image where
  width : Nat
  height : Nat
  data : List Color
deriving DecidableEq, Repr

/-- A raylib texture, identified by the image it was uploaded from. -/
structure Texture2D where
  source : Image
deriving DecidableEq, Repr

/-- A raylib mesh, identified by the heightmap and the size it was generated from. -/
structure Mesh where
  heightmap : Image
  size : Vector3
deriving DecidableEq, Repr

/-- A raylib model: its mesh and the texture of the diffuse map of material 0. -/
structure Model where
  mesh : Mesh
  diffuse : Texture2D
deriving DecidableEq, Repr

/-- Modelled from the spec: `GenImageColor(width, height, color)` of raylib.h, which is not
under src/; the spec has the tile build a greyscale height-encoded image.  An image of the
given size, every pixel `color`. -/
def GenImageColor (width height : Nat) (color : Color) : Image :=
  ⟨width, height, List.replicate (width * height) color⟩

/-- Modelled from the spec: `ImageDrawPixel(&img, x, y, color)` of raylib.h, which is not
under src/; it sets one pixel of the height-encoded image, and clips outside the image. -/
def ImageDrawPixel (img : Image) (x y : Nat) (color : Color) : Image :=
  if x < img.width ∧ y < img.height then
    { img with data := img.data.set (y * img.width + x) color }
  else img

/-- Modelled from the spec: `LoadTextureFromImage(image)` of raylib.h, which is not under
src/; the spec has the texture built from the height image. -/
def LoadTextureFromImage (image : Image) : Texture2D := ⟨image⟩

/-- Modelled from the spec: `GenMeshHeightmap(heightmap, size)` of raylib.h, which is not
under src/; the spec has the mesh constructed from the height image at a fixed scale. -/
def GenMeshHeightmap (heightmap : Image) (size : Vector3) : Mesh := ⟨heightmap, size⟩

/-- Modelled from the spec: `LoadModelFromMesh(mesh)` of raylib.h, which is not under src/;
the spec has a renderable model produced from the mesh.  Its default material carries
the default 1x1 white texture. -/
def LoadModelFromMesh (mesh : Mesh) : Model := ⟨mesh, ⟨GenImageColor 1 1 WHITE⟩⟩

/-! ## Numeric conversions -/

/-- The C conversion `(int) f` of a floating value: truncation toward zero. -/
def castInt (f : ℚ) : Int := if 0 ≤ f then ⌊f⌋ else ⌈f⌉

/-- Rounding to the nearest integer, ties to the even one: the IEEE 754 default. -/
def roundHalfEven (t : ℚ) : Int :=
  let f := ⌊t⌋
  let r := t - (f : ℚ)
  if r < 1 / 2 then f else if 1 / 2 < r then f + 1 else if f % 2 = 0 then f else f + 1

/-- The value that a C `float` (IEEE 754 binary32, round to nearest, ties to even) takes
for the exact result `q` of an arithmetic operation: 24 significant bits, the exponent
not below -126.  Overflow to infinity is not modelled: the exponent is unbounded above. -/
def roundFloat32 (q : ℚ) : ℚ :=
  if q = 0 then 0
  else
    let e := max (Int.log 2 |q|) (-126)
    let ulp : ℚ := (2 : ℚ) ^ (e - 23)
    (roundHalfEven (q / ulp) : ℚ) * ulp

/-- The C conversion `(unsigned char) f`: truncation, kept in one byte. -/
def castUChar (f : ℚ) : Nat := (castInt f).toNat % 256

/-- Modelled from the spec: `Clamp(value, min, max)` of raymath.h, which is not under
src/; the spec says the summed octaves are clamped to a caller-specified [min, max]
range.  Written as raymath does: first raised to `min`, then lowered to `max`. -/
def Clamp (value min max : ℚ) : ℚ :=
  let result := if value < min then min else value
  if result > max then max else result

/-- Modelled from the spec: `Vector2Distance(v1, v2)` of raymath.h, which is not under src/;
the spec names the Euclidean grid distance, `sqrt(dx*dx + dy*dy)`.  The square root is
not a rational: this is the radicand, the square of the distance. -/
def Vector2DistanceSqr (v1 v2 : Vector2) : ℚ :=
  (v1.x - v2.x) * (v1.x - v2.x) + (v1.y - v2.y) * (v1.y - v2.y)

/-- The test `Vector2Distance(v1, v2) > limit` for a non-negative integer `limit`,
decided on the squares (the square root is strictly monotone). -/
def Vector2DistanceGt (v1 v2 : Vector2) (limit : Nat) : Bool :=
  decide (Vector2DistanceSqr v1 v2 > (limit : ℚ) * (limit : ℚ))

/-! ## ChunkNode -/

/-- The array `float heights[CHUNK_SIZE][CHUNK_SIZE]`: `CHUNK_SIZE` rows of `CHUNK_SIZE`
values. -/
structure HeightGrid where
  rows : List (List ℚ)
  rows_length : rows.length = CHUNK_SIZE
  row_length : ∀ row ∈ rows, row.length = CHUNK_SIZE
deriving DecidableEq, Repr

/-- A grid holding `val` everywhere. -/
def HeightGrid.fill (val : ℚ) : HeightGrid :=
  { rows := List.replicate CHUNK_SIZE (List.replicate CHUNK_SIZE val)
    rows_length := List.length_replicate _ _
    row_length := fun row h => by
      rw [List.eq_of_mem_replicate h]
      exact List.length_replicate _ _ }

/-- The read `heights[x][y]`. -/
def HeightGrid.get (heights : HeightGrid) (x y : Nat) : ℚ :=
  (heights.rows.getD x []).getD y 0

/-- The write `heights[x][y] = val`. -/
def HeightGrid.put (heights : HeightGrid) (x y : Nat) (val : ℚ) : HeightGrid :=
  { rows := heights.rows.set x ((heights.rows.getD x []).set y val)
    rows_length := by
      rw [List.length_set]
      exact heights.rows_length
    row_length := fun row h => by
      by_cases hx : x < heights.rows.length
      · rcases List.mem_or_eq_of_mem_set h with h | h
        · exact heights.row_length row h
        · rw [h, List.length_set, List.getD_eq_getElem _ _ hx]
          exact heights.row_length _ (List.getElem_mem _)
      · rw [List.set_eq_of_length_le (Nat.le_of_not_lt hx)] at h
        exact heights.row_length row h }

structure ChunkNode where
  location : Vector2
  heightMap : Image
  heights : HeightGrid
  isLoaded : Bool
deriving DecidableEq, Repr

structure Area where
  location : Vector2
  chunkNode : ChunkNode
  mesh : Mesh
  model : Model
deriving DecidableEq, Repr

/-- A resource handed back: to raylib (`Unload...`) or to the allocator (`free`). -/
inductive Release where
  | UnloadImage (image : Image)
  | UnloadTexture (texture : Texture2D)
  | UnloadModel (model : Model)
  | freeMesh (mesh : Mesh)
  | freeModel (model : Model)
  | freeChunkNode (node : ChunkNode)
deriving DecidableEq, Repr

/-- The process-wide state outside the world struct. -/
structure Globals where
  seed : Int
  released : List Release
deriving DecidableEq, Repr

/-- Append one entry to the release log. -/
def Globals.release (g : Globals) (r : Release) : Globals :=
  { g with released := g.released ++ [r] }

/-- `CreateChunkNode(location)`: the node comes from `malloc`; its `heightMap` and
`heights` are indeterminate until `Load` and are taken as empty / zero. -/
def CreateChunkNode (location : Vector2) : ChunkNode :=
  { location := location
    heightMap := ⟨0, 0, []⟩
    heights := HeightGrid.fill 0
    isLoaded := false }

/-- `CalcHeightChunkNode(node, X, Y, min, max)`.  `noise seed` is
`SimplexNoise_Noise` (simplex.h, external) under the seed set by
`SimplexNoise_SetSeed`. -/
def CalcHeightChunkNode (noise : Int → ℚ → ℚ → ℚ) (g : Globals) (_node : ChunkNode)
    (X Y : ℚ) (min max : Int) : ℚ :=
  let height := Clamp
    (noise g.seed (X * LANDSCAPE_NOISE_SMALL) (Y * LANDSCAPE_NOISE_SMALL) +
     noise g.seed (X * LANDSCAPE_NOISE_MEDIUM) (Y * LANDSCAPE_NOISE_MEDIUM) +
     noise g.seed (X * LANDSCAPE_NOISE_BIG) (Y * LANDSCAPE_NOISE_BIG))
    min max
  height

/-- The body of the inner loop of `LoadChunkNode` at indices `x`, `y`. -/
def LoadChunkNode.body (noise : Int → ℚ → ℚ → ℚ) (g : Globals)
    (locationOffsetX locationOffsetY : Int) (x : Nat) (node : ChunkNode) (y : Nat) :
    ChunkNode :=
  let val := CalcHeightChunkNode noise g node
    ((locationOffsetX + (x : Int) : Int) : ℚ) ((locationOffsetY + (y : Int) : Int) : ℚ) 0 2
  let node := { node with heights := node.heights.put x y val }
  let color : Color :=
    ⟨castUChar ((val / 2) * 255), castUChar ((val / 2) * 255), castUChar ((val / 2) * 255), 255⟩
  { node with heightMap := ImageDrawPixel node.heightMap x y color }

/-- `LoadChunkNode(node)`.  The two offsets are the float products
`location * (CHUNK_SIZE - 1)`, rounded to float32 and then converted to `int`. -/
def LoadChunkNode (noise : Int → ℚ → ℚ → ℚ) (g : Globals) (node : ChunkNode) : ChunkNode :=
  let node := { node with heightMap := GenImageColor CHUNK_SIZE CHUNK_SIZE BLACK }
  let locationOffsetX : Int :=
    castInt (roundFloat32 (node.location.x * ((CHUNK_SIZE - 1 : Nat) : ℚ)))
  let locationOffsetY : Int :=
    castInt (roundFloat32 (node.location.y * ((CHUNK_SIZE - 1 : Nat) : ℚ)))
  let node := (List.range CHUNK_SIZE).foldl
    (fun node x =>
      (List.range CHUNK_SIZE).foldl
        (LoadChunkNode.body noise g locationOffsetX locationOffsetY x) node)
    node
  { node with isLoaded := true }

/-- `UnloadChunkNode(node)`: the node after the call and the globals after the call. -/
def UnloadChunkNode (g : Globals) (node : ChunkNode) : ChunkNode × Globals :=
  if node.isLoaded then
    ({ node with isLoaded := false }, g.release (.UnloadImage node.heightMap))
  else (node, g)

/-- `DestroyChunkNode(node)`. -/
def DestroyChunkNode (g : Globals) (node : ChunkNode) : Globals :=
  let r := if node.isLoaded then UnloadChunkNode g node else (node, g)
  r.2.release (.freeChunkNode r.1)

/-! ## InfinityWorld -/

structure InfinityWorld where
  areas : List (Option Area)
  areaCount : Nat
  areaCapacity : Nat
deriving DecidableEq, Repr

/-- `CreateInfinityWorld(seed)`: the new world (its `areas` is NULL: no slot) and the
globals with the seed set. -/
def CreateInfinityWorld (g : Globals) (seed : Int) : InfinityWorld × Globals :=
  ({ areas := [], areaCount := 0, areaCapacity := 0 }, { g with seed := seed })

/-- The loop of `GetAreaByLocalPos` from index `i` on: `none` when it reads a slot it
must not, `some none` for NULL, `some (some area)` for a hit. -/
def GetAreaByLocalPos.loop (world : InfinityWorld) (pos : Vector2) (i : Nat) :
    Option (Option Area) :=
  if i < world.areaCount then
    match world.areas[i]? with
    | some (some area) =>
      if castInt area.location.x = castInt pos.x ∧ castInt area.location.y = castInt pos.y then
        some (some area)
      else GetAreaByLocalPos.loop world pos (i + 1)
    | _ => none
  else some none
termination_by world.areaCount - i

/-- `GetAreaByLocalPos(world, pos)`: the returned pointer and the world after the call. -/
def GetAreaByLocalPos (world : InfinityWorld) (pos : Vector2) :
    Option (Option Area × InfinityWorld) :=
  (GetAreaByLocalPos.loop world pos 0).map (fun found => (found, world))

/-- The C library `realloc` on the slot array: the first slots are kept, new slots are
indeterminate. -/
def reallocAreas (areas : List (Option Area)) (capacity : Nat) : List (Option Area) :=
  (areas ++ List.replicate capacity none).take capacity

/-- `LoadOrGetAreaByLocation(world, location)`: the returned (never NULL) area and the
world after the call. -/
def LoadOrGetAreaByLocation (noise : Int → ℚ → ℚ → ℚ) (g : Globals) (world : InfinityWorld)
    (location : Vector2) : Option (Area × InfinityWorld) :=
  match GetAreaByLocalPos world location with
  | none => none
  | some (some foundArea, world) => some (foundArea, world)
  | some (none, world) =>
    let chunk := CreateChunkNode location
    let chunk := LoadChunkNode noise g chunk
    let texture := LoadTextureFromImage chunk.heightMap
    let mesh := GenMeshHeightmap chunk.heightMap
      ⟨(CHUNK_TO_MESH_SCALE : ℚ), 1, (CHUNK_TO_MESH_SCALE : ℚ)⟩
    let model := LoadModelFromMesh mesh
    let model := { model with diffuse := texture }
    let area : Area :=
      { location := location, chunkNode := chunk, mesh := mesh, model := model }
    let world :=
      if world.areaCount ≥ world.areaCapacity then
        let capacity := if world.areaCapacity = 0 then 8 else world.areaCapacity * 2
        { world with areaCapacity := capacity, areas := reallocAreas world.areas capacity }
      else world
    if world.areaCount < world.areas.length then
      some (area, { world with
        areas := world.areas.set world.areaCount (some area)
        areaCount := world.areaCount + 1 })
    else none

/-- `UnloadArea(world, area)`: the area as the call leaves it and the globals after the
call (the world struct is not touched).  The call writes through `area`: its chunk node is
left with `isLoaded = false`; the node, the mesh and the model it points to are then
handed back, which the release log records. -/
def UnloadArea (g : Globals) (_world : InfinityWorld) (area : Area) : Area × Globals :=
  let r := UnloadChunkNode g area.chunkNode
  let g := r.2.release (.UnloadTexture area.model.diffuse)
  let g := g.release (.UnloadModel area.model)
  let g := g.release (.freeMesh area.mesh)
  let g := g.release (.freeModel area.model)
  ({ area with chunkNode := r.1 }, DestroyChunkNode g r.1)

/-- The tile coordinate `ceil(w / (CHUNK_SIZE * CHUNK_TO_MESH_SCALE)) - 1` that
`UnloadFarAreas` computes from one world coordinate. -/
def UnloadFarAreas.coordinate (w : ℚ) : Int :=
  ⌈w / ((CHUNK_SIZE * CHUNK_TO_MESH_SCALE : Nat) : ℚ)⌉ - 1

/-- The local `currentLocation` of `UnloadFarAreas`. -/
def UnloadFarAreas.currentLocation (pos : Vector3) : Vector2 :=
  ⟨(UnloadFarAreas.coordinate pos.x : ℚ), (UnloadFarAreas.coordinate pos.z : ℚ)⟩

/-- The loop of `UnloadFarAreas` from index `i` on.  `UnloadArea` changes the area that
`areas[i]` points to: slot `i` holds the unloaded area until the next statement overwrites
it with the last live entry. -/
def UnloadFarAreas.loop (currentLocation : Vector2) (g : Globals) (world : InfinityWorld)
    (i : Nat) : Option (InfinityWorld × Globals) :=
  if i < world.areaCount then
    match world.areas[i]? with
    | some (some area) =>
      if Vector2DistanceGt currentLocation area.location FAR_AREA_LIMIT_DISTANCE then
        let r := UnloadArea g world area
        let areas := world.areas.set i (some r.1)
        let areaCount := world.areaCount - 1
        match areas[areaCount]? with
        | some last =>
          UnloadFarAreas.loop currentLocation r.2
            { world with areas := areas.set i last, areaCount := areaCount } i
        | none => none
      else UnloadFarAreas.loop currentLocation g world (i + 1)
    | _ => none
  else some (world, g)
termination_by world.areaCount - i

/-- `UnloadFarAreas(world, pos)`: the world and the globals after the call. -/
def UnloadFarAreas (g : Globals) (world : InfinityWorld) (pos : Vector3) :
    Option (InfinityWorld × Globals) :=
  UnloadFarAreas.loop (UnloadFarAreas.currentLocation pos) g world 0


/-- The variables of the loop of `UnloadFarAreas`: the globals, the world and the index
`i`. -/
structure UnloadFarAreas.LoopState where
  g : Globals
  world : InfinityWorld
  i : Nat
deriving DecidableEq, Repr

/-- One iteration of the loop of `UnloadFarAreas`: its body, entered with
`i < areaCount`. -/
def UnloadFarAreas.body (currentLocation : Vector2) (s : UnloadFarAreas.LoopState) :
    Option UnloadFarAreas.LoopState :=
  match s.world.areas[s.i]? with
  | some (some area) =>
    if Vector2DistanceGt currentLocation area.location FAR_AREA_LIMIT_DISTANCE then
      let r := UnloadArea s.g s.world area
      let areas := s.world.areas.set s.i (some r.1)
      let areaCount := s.world.areaCount - 1
      match areas[areaCount]? with
      | some last =>
        some ⟨r.2, { s.world with areas := areas.set s.i last, areaCount := areaCount }, s.i⟩
      | none => none
    else some ⟨s.g, s.world, s.i + 1⟩
  | _ => none

/-- The first `n` iterations of the loop of `UnloadFarAreas`: the loop test
`i < areaCount` holds before each of them.  `none` when the loop has exited before the
`n`-th iteration, or when an iteration has no defined behaviour. -/
def UnloadFarAreas.iterations (currentLocation : Vector2) :
    Nat → UnloadFarAreas.LoopState → Option UnloadFarAreas.LoopState
  | 0, s => some s
  | n + 1, s =>
    if s.i < s.world.areaCount then
      match UnloadFarAreas.body currentLocation s with
      | some s1 => UnloadFarAreas.iterations currentLocation n s1
      | none => none
    else none

/-! ## Vocabulary of the specification -/

/-- The resident tiles: the entries `areas[0..areaCount)`, in array order. -/
def InfinityWorld.residents (world : InfinityWorld) : List Area :=
  (world.areas.take world.areaCount).reduceOption

/-- A well-formed world: `areaCapacity` is the number of allocated slots, `areaCount` does
not exceed it, and every slot below `areaCount` holds a valid pointer. -/
def InfinityWorld.WF (world : InfinityWorld) : Prop :=
  world.areaCapacity = world.areas.length ∧ world.areaCount ≤ world.areaCapacity ∧
    ∀ p ∈ world.areas.take world.areaCount, p.isSome = true

instance (world : InfinityWorld) : Decidable world.WF := by
  unfold InfinityWorld.WF
  infer_instance

/-- A tile coordinate: a location whose two components are integers. -/
def IsTileCoordinate (v : Vector2) : Prop :=
  ((castInt v.x : Int) : ℚ) = v.x ∧ ((castInt v.y : Int) : ℚ) = v.y

/-- The integer tile coordinate that `GetAreaByLocalPos` reads off a location: both
components after `(int)`.  On a tile coordinate it is the location itself. -/
def tileCoordinate (v : Vector2) : Int × Int := (castInt v.x, castInt v.y)

/-- The comparison of `GetAreaByLocalPos`: both components agree after `(int)`. -/
def sameCell (pos : Vector2) (area : Area) : Bool :=
  decide (castInt area.location.x = castInt pos.x ∧ castInt area.location.y = castInt pos.y)

/-- The world states reachable from `CreateInfinityWorld` by calls of
`LoadOrGetAreaByLocation` (at locations satisfying `ok`) and `UnloadFarAreas`, each paired
with the globals it is reached with. -/
inductive Reachable (noise : Int → ℚ → ℚ → ℚ) (ok : Vector2 → Prop) :
    InfinityWorld → Globals → Prop where
  | create (g : Globals) (seed : Int) :
      Reachable noise ok (CreateInfinityWorld g seed).1 (CreateInfinityWorld g seed).2
  | load {world : InfinityWorld} {g : Globals} (location : Vector2) (area : Area)
      (world1 : InfinityWorld) :
      Reachable noise ok world g → ok location →
      LoadOrGetAreaByLocation noise g world location = some (area, world1) →
      Reachable noise ok world1 g
  | unload {world : InfinityWorld} {g : Globals} (pos : Vector3) (world1 : InfinityWorld)
      (g1 : Globals) :
      Reachable noise ok world g → UnloadFarAreas g world pos = some (world1, g1) →
      Reachable noise ok world1 g1

/-- The area that `LoadOrGetAreaByLocation` builds on a miss. -/
def builtArea (noise : Int → ℚ → ℚ → ℚ) (g : Globals) (location : Vector2) : Area :=
  let chunk := LoadChunkNode noise g (CreateChunkNode location)
  let mesh := GenMeshHeightmap chunk.heightMap
    ⟨(CHUNK_TO_MESH_SCALE : ℚ), 1, (CHUNK_TO_MESH_SCALE : ℚ)⟩
  { location := location, chunkNode := chunk, mesh := mesh,
    model := { LoadModelFromMesh mesh with diffuse := LoadTextureFromImage chunk.heightMap } }

/-- Whether a log entry is a release of a height image (`UnloadImage`). -/
def Release.isUnloadImage : Release → Bool
  | .UnloadImage _ => true
  | _ => false

/-- Whether a log entry is a release of a texture (`UnloadTexture`). -/
def Release.isUnloadTexture : Release → Bool
  | .UnloadTexture _ => true
  | _ => false

/-- Whether a log entry is a release of a model (`UnloadModel`). -/
def Release.isUnloadModel : Release → Bool
  | .UnloadModel _ => true
  | _ => false

/-- The 3x3 block of tile coordinates centred on `(cx, cy)`. -/
def block3x3 (cx cy : Int) : List Vector2 :=
  [((-1 : Int), (-1 : Int)), (-1, 0), (-1, 1), (0, -1), (0, 0), (0, 1), (1, -1), (1, 0),
    (1, 1)].map (fun d => ⟨((cx + d.1 : Int) : ℚ), ((cy + d.2 : Int) : ℚ)⟩)

/-- `LoadOrGetAreaByLocation` applied to each coordinate of a list, in order: the world
after the last call. -/
def loadOrGetEach (noise : Int → ℚ → ℚ → ℚ) (g : Globals) :
    InfinityWorld → List Vector2 → Option InfinityWorld
  | world, [] => some world
  | world, location :: rest =>
    match LoadOrGetAreaByLocation noise g world location with
    | some (_, world1) => loadOrGetEach noise g world1 rest
    | none => none

/-! ## Sample data for the worked instances -/

/-- A noise function for worked instances. -/
def sampleNoise : Int → ℚ → ℚ → ℚ := fun seed x y => (seed : ℚ) / 100000 + x - y

/-- Globals for worked instances: seed 12456, nothing released. -/
def sampleGlobals : Globals := ⟨12456, []⟩

/-- The tile that `LoadOrGetAreaByLocation` builds at integer coordinate `(x, y)`. -/
def sampleArea (x y : Int) : Area := builtArea sampleNoise sampleGlobals ⟨(x : ℚ), (y : ℚ)⟩

/-- A world of capacity 8 with three residents, at (0, 0), (7, -2) and (-1, -1). -/
def sampleWorld : InfinityWorld :=
  ⟨[some (sampleArea 0 0), some (sampleArea 7 (-2)), some (sampleArea (-1) (-1)),
    none, none, none, none, none], 3, 8⟩

/-- A world of capacity 8 with one resident, at (-1, -1). -/
def sampleWorldSingle : InfinityWorld :=
  ⟨[some (sampleArea (-1) (-1)), none, none, none, none, none, none, none], 1, 8⟩

/-! ## Auxiliary facts on lists and conversions -/

theorem castInt_intCast (n : Int) : castInt (n : ℚ) = n := by
  unfold castInt
  split <;> simp

theorem roundHalfEven_intCast (n : Int) : roundHalfEven (n : ℚ) = n := by
  simp [roundHalfEven]

theorem log_two_abs_eq {q : ℚ} {e : Int} (hlo : (2 : ℚ) ^ e ≤ |q|)
    (hhi : |q| < (2 : ℚ) ^ (e + 1)) : Int.log 2 |q| = e := by
  have hpos : 0 < |q| := lt_of_lt_of_le (zpow_pos (by norm_num) e) hlo
  have h1 : e ≤ Int.log 2 |q| :=
    (Int.zpow_le_iff_le_log (by norm_num) hpos).mp (by simpa using hlo)
  have h2 : Int.log 2 |q| < e + 1 :=
    (Int.lt_zpow_iff_log_lt (by norm_num) hpos).mp (by simpa using hhi)
  omega

/-- The float32 value of a number whose binary exponent is `e`. -/
theorem roundFloat32_of_exponent {q : ℚ} {e : Int} (hlo : (2 : ℚ) ^ e ≤ |q|)
    (hhi : |q| < (2 : ℚ) ^ (e + 1)) (he : -126 ≤ e) :
    roundFloat32 q = (roundHalfEven (q / (2 : ℚ) ^ (e - 23)) : ℚ) * (2 : ℚ) ^ (e - 23) := by
  have hpos : 0 < |q| := lt_of_lt_of_le (zpow_pos (by norm_num) e) hlo
  have hq : q ≠ 0 := abs_pos.mp hpos
  unfold roundFloat32
  rw [if_neg hq, log_two_abs_eq hlo hhi, max_eq_left he]

/-- An integer below `2^24` in absolute value is a float32 value: rounding keeps it. -/
theorem roundFloat32_intCast (n : Int) (h : |n| < 2 ^ 24) : roundFloat32 (n : ℚ) = n := by
  by_cases hn : n = 0
  · subst hn
    simp [roundFloat32]
  · have hq : (n : ℚ) ≠ 0 := by exact_mod_cast hn
    have hpos : 0 < |(n : ℚ)| := abs_pos.mpr hq
    have hone : (1 : ℚ) ≤ |(n : ℚ)| := by
      have : (1 : Int) ≤ |n| := Int.one_le_abs hn
      exact_mod_cast this
    have hlt : |(n : ℚ)| < (2 : ℚ) ^ (24 : Int) := by
      have h1 : |n| < 16777216 := by
        norm_num at h
        exact h
      have h2 : |(n : ℚ)| < 16777216 := by exact_mod_cast h1
      norm_num
      exact h2
    have h0 : (0 : Int) ≤ Int.log 2 |(n : ℚ)| :=
      (Int.zpow_le_iff_le_log (by norm_num) hpos).mp (by simpa using hone)
    have h24 : Int.log 2 |(n : ℚ)| < 24 :=
      (Int.lt_zpow_iff_log_lt (by norm_num) hpos).mp (by simpa using hlt)
    obtain ⟨k, hk⟩ := Int.eq_ofNat_of_zero_le (show (0 : Int) ≤ 23 - Int.log 2 |(n : ℚ)| by omega)
    have hexp : Int.log 2 |(n : ℚ)| - 23 = -(k : Int) := by omega
    have hulp : (2 : ℚ) ^ (Int.log 2 |(n : ℚ)| - 23) = ((2 : ℚ) ^ k)⁻¹ := by
      rw [hexp, zpow_neg, zpow_natCast]
    have hpow : (0 : ℚ) < (2 : ℚ) ^ k := pow_pos (by norm_num) k
    unfold roundFloat32
    rw [if_neg hq, max_eq_left (by omega)]
    simp only [hulp]
    have hdiv : (n : ℚ) / ((2 : ℚ) ^ k)⁻¹ = ((n * 2 ^ k : Int) : ℚ) := by
      rw [div_inv_eq_mul]
      push_cast
      ring
    rw [hdiv, roundHalfEven_intCast]
    push_cast
    field_simp

theorem reduceOption_map_some {α : Type} (l : List α) : (l.map some).reduceOption = l := by
  induction l with
  | nil => rfl
  | cons a t ih => simp [List.reduceOption_cons_of_some, ih]

theorem eq_map_some_of_all_isSome {α : Type} (l : List (Option α))
    (h : ∀ p ∈ l, p.isSome = true) : l = l.reduceOption.map some := by
  induction l with
  | nil => rfl
  | cons a t ih =>
    cases a with
    | none => simpa using h none (List.mem_cons_self _ _)
    | some a =>
      rw [List.reduceOption_cons_of_some, List.map_cons]
      congr 1
      exact ih (fun p hp => h p (List.mem_cons_of_mem _ hp))

/-- A well-formed world is its residents followed by the unused slots. -/
theorem InfinityWorld.WF.layout {world : InfinityWorld} (h : world.WF) :
    ∃ rest, world = ⟨world.residents.map some ++ rest, world.residents.length,
      (world.residents.map some ++ rest).length⟩ := by
  obtain ⟨h1, h2, h3⟩ := h
  refine ⟨world.areas.drop world.areaCount, ?_⟩
  have e1 : world.residents.map some = world.areas.take world.areaCount :=
    (eq_map_some_of_all_isSome _ h3).symm
  have e2 : world.residents.length = world.areaCount := by
    have := congrArg List.length e1
    rw [List.length_map, List.length_take] at this
    omega
  rw [e1, e2, List.take_append_drop, ← h1]

theorem residents_mk (L : List Area) (rest : List (Option Area)) (cap : Nat) :
    InfinityWorld.residents ⟨L.map some ++ rest, L.length, cap⟩ = L := by
  unfold InfinityWorld.residents
  have : (L.map some ++ rest).take L.length = L.map some := by
    rw [List.take_append_of_le_length (by simp)]
    simp [List.take_of_length_le]
  simp only [this]
  exact reduceOption_map_some L

theorem WF_mk (L : List Area) (rest : List (Option Area)) :
    InfinityWorld.WF ⟨L.map some ++ rest, L.length, (L.map some ++ rest).length⟩ := by
  refine ⟨rfl, by simp, ?_⟩
  intro p hp
  have : (L.map some ++ rest).take L.length = L.map some := by
    rw [List.take_append_of_le_length (by simp)]
    simp [List.take_of_length_le]
  simp only [this, List.mem_map] at hp
  obtain ⟨a, _, rfl⟩ := hp
  rfl

theorem getElem?_layout (pre t : List Area) (a : Area) (rest : List (Option Area)) :
    ((pre ++ a :: t).map some ++ rest)[pre.length]? = some (some a) := by
  induction pre with
  | nil => simp
  | cons p pre ih => simpa using ih

theorem set_layout (pre t : List Area) (a b : Area) (rest : List (Option Area)) :
    ((pre ++ a :: t).map some ++ rest).set pre.length (some b) =
      (pre ++ b :: t).map some ++ rest := by
  induction pre with
  | nil => simp
  | cons p pre ih => simp [ih]


/-! ## The loops on a laid-out world -/

theorem GetAreaByLocalPos.lookup_layout (pos : Vector2) (mid : List Area) :
    ∀ (pre : List Area) (rest : List (Option Area)) (cap : Nat),
      GetAreaByLocalPos.loop ⟨(pre ++ mid).map some ++ rest, (pre ++ mid).length, cap⟩ pos
        pre.length = some (mid.find? (sameCell pos)) := by
  induction mid with
  | nil =>
    intro pre rest cap
    rw [GetAreaByLocalPos.loop]
    simp
  | cons a t ih =>
    intro pre rest cap
    rw [GetAreaByLocalPos.loop]
    have hlt : pre.length < (pre ++ a :: t).length := by simp
    simp only [hlt, if_true, getElem?_layout]
    by_cases hc : castInt a.location.x = castInt pos.x ∧ castInt a.location.y = castInt pos.y
    · have hs : sameCell pos a = true := by simp [sameCell, hc]
      simp [hc, List.find?_cons, hs]
    · have hs : sameCell pos a = false := by simp [sameCell, hc]
      have e : pre ++ a :: t = (pre ++ [a]) ++ t := by simp
      have := ih (pre ++ [a]) rest cap
      rw [← e] at this
      simp only [List.length_append, List.length_singleton] at this
      simp only [hc, if_false, List.find?_cons, hs]
      simpa using this

theorem UnloadFarAreas.evict_layout (currentLocation : Vector2) (world0 : InfinityWorld)
    (n : Nat) :
    ∀ (pre mid : List Area) (rest : List (Option Area)) (cap : Nat) (g : Globals),
      mid.length = n →
      ∃ (mid1 U : List Area) (rest1 : List (Option Area)),
        UnloadFarAreas.loop currentLocation g
            ⟨(pre ++ mid).map some ++ rest, (pre ++ mid).length, cap⟩ pre.length =
          some (⟨(pre ++ mid1).map some ++ rest1, (pre ++ mid1).length, cap⟩,
            U.foldl (fun g a => (UnloadArea g world0 a).2) g) ∧
        ((pre ++ mid1).map some ++ rest1).length = ((pre ++ mid).map some ++ rest).length ∧
        mid1.Perm (mid.filter
          (fun a => !Vector2DistanceGt currentLocation a.location FAR_AREA_LIMIT_DISTANCE)) ∧
        U.Perm (mid.filter
          (fun a => Vector2DistanceGt currentLocation a.location FAR_AREA_LIMIT_DISTANCE)) := by
  induction n with
  | zero =>
    intro pre mid rest cap g hn
    have hmid : mid = [] := List.eq_nil_of_length_eq_zero hn
    subst hmid
    refine ⟨[], [], rest, ?_, rfl, by simp, by simp⟩
    rw [UnloadFarAreas.loop]
    simp
  | succ n ih =>
    intro pre mid rest cap g hn
    cases mid with
    | nil => simp at hn
    | cons a t =>
      have ht : t.length = n := by simpa using hn
      have hlt : pre.length < (pre ++ a :: t).length := by simp
      rw [UnloadFarAreas.loop]
      simp only [hlt, if_true, getElem?_layout]
      by_cases hfar : Vector2DistanceGt currentLocation a.location FAR_AREA_LIMIT_DISTANCE = true
      · simp only [hfar, if_true]
        rcases List.eq_nil_or_concat t with rfl | ⟨t1, b, hcat⟩
        · -- the far entry is the last one
          obtain ⟨mid1, U, rest1, h1, h2, h3, h4⟩ :=
            ih pre [] (some (UnloadArea g world0 a).1 :: rest) cap (UnloadArea g world0 a).2 ht
          refine ⟨mid1, a :: U, rest1, ?_, ?_, ?_, ?_⟩
          · have hidx : (pre ++ [a]).length - 1 = pre.length := by simp
            simp only [set_layout, hidx, getElem?_layout]
            have e : ∀ a1 : Area, (pre ++ [a1]).map some ++ rest =
                (pre ++ []).map some ++ (some a1 :: rest) := by
              intro a1
              simp
            rw [e]
            simpa using h1
          · rw [h2]; simp
          · simpa [hfar] using h3
          · simpa [hfar] using h4
        · -- the last entry `b` is moved into the freed slot
          rw [List.concat_eq_append] at hcat
          subst hcat
          have hlen : (b :: t1).length = n := by
            rw [← ht]; simp
          obtain ⟨mid1, U, rest1, h1, h2, h3, h4⟩ :=
            ih pre (b :: t1) (some b :: rest) cap (UnloadArea g world0 a).2 hlen
          refine ⟨mid1, a :: U, rest1, ?_, ?_, ?_, ?_⟩
          · have hidx : (pre ++ a :: (t1 ++ [b])).length - 1 = (pre ++ a :: t1).length := by
              simp
            have e1 : pre ++ a :: (t1 ++ [b]) = (pre ++ a :: t1) ++ b :: [] := by simp
            have hget : ((pre ++ a :: (t1 ++ [b])).map some ++ rest)[(pre ++ a :: t1).length]? =
                some (some b) := by
              rw [e1]
              exact getElem?_layout (pre ++ a :: t1) [] b rest
            have hget1 : ∀ a1 : Area,
                ((pre ++ a1 :: (t1 ++ [b])).map some ++ rest)[(pre ++ a :: t1).length]? =
                  some (some b) := by
              intro a1
              have e2 : pre ++ a1 :: (t1 ++ [b]) = (pre ++ a1 :: t1) ++ b :: [] := by simp
              have e3 : (pre ++ a :: t1).length = (pre ++ a1 :: t1).length := by simp
              rw [e2, e3]
              exact getElem?_layout (pre ++ a1 :: t1) [] b rest
            simp only [set_layout, hidx, hget1]
            have e : (pre ++ b :: (t1 ++ [b])).map some ++ rest =
                (pre ++ b :: t1).map some ++ (some b :: rest) := by simp
            rw [e]
            simpa using h1
          · rw [h2]; simp
          · have hp : (b :: t1).Perm (t1 ++ [b]) := by
              simpa using (List.perm_append_comm : ([b] ++ t1).Perm (t1 ++ [b]))
            refine h3.trans ?_
            simpa [hfar] using hp.filter _
          · have hp : (b :: t1).Perm (t1 ++ [b]) := by
              simpa using (List.perm_append_comm : ([b] ++ t1).Perm (t1 ++ [b]))
            have := (h4.trans (hp.filter _)).cons a
            simpa [hfar] using this
      · have hnear : Vector2DistanceGt currentLocation a.location FAR_AREA_LIMIT_DISTANCE = false := by
          simpa using hfar
        simp only [hnear]
        obtain ⟨mid1, U, rest1, h1, h2, h3, h4⟩ := ih (pre ++ [a]) t rest cap g ht
        refine ⟨a :: mid1, U, rest1, ?_, ?_, ?_, ?_⟩
        · simpa using h1
        · simpa using h2
        · simpa [hnear] using h3
        · simpa [hnear] using h4


/-! ## The operations on a well-formed world -/

theorem GetAreaByLocalPos_eq {world : InfinityWorld} (h : world.WF) (pos : Vector2) :
    GetAreaByLocalPos world pos = some (world.residents.find? (sameCell pos), world) := by
  obtain ⟨rest, e⟩ := h.layout
  have := GetAreaByLocalPos.lookup_layout pos world.residents [] rest
    ((world.residents.map some ++ rest).length)
  simp only [List.nil_append, List.length_nil] at this
  rw [← e] at this
  simp [GetAreaByLocalPos, this]

theorem set_layout_end (L : List Area) (b : Area) (r : Option Area)
    (rest : List (Option Area)) :
    (L.map some ++ r :: rest).set L.length (some b) = (L ++ [b]).map some ++ rest := by
  induction L with
  | nil => simp
  | cons p L ih => simp [ih]

theorem reallocAreas_grow (L : List Area) (capacity : Nat) (h : L.length < capacity) :
    reallocAreas (L.map some) capacity =
      L.map some ++ none :: List.replicate (capacity - L.length - 1) none := by
  unfold reallocAreas
  rw [List.take_append_eq_append_take, List.take_of_length_le (by simp; omega)]
  congr 1
  rw [List.length_map, List.take_replicate, ← List.replicate_succ]
  congr 1
  omega

theorem LoadOrGetAreaByLocation_hit (noise : Int → ℚ → ℚ → ℚ) (g : Globals)
    {world : InfinityWorld} (h : world.WF) (location : Vector2) (area : Area)
    (hfind : world.residents.find? (sameCell location) = some area) :
    LoadOrGetAreaByLocation noise g world location = some (area, world) := by
  simp [LoadOrGetAreaByLocation, GetAreaByLocalPos_eq h, hfind]

theorem LoadOrGetAreaByLocation_miss (noise : Int → ℚ → ℚ → ℚ) (g : Globals)
    {world : InfinityWorld} (h : world.WF) (location : Vector2)
    (hfind : world.residents.find? (sameCell location) = none) :
    ∃ world1, LoadOrGetAreaByLocation noise g world location =
        some (builtArea noise g location, world1) ∧
      world1.WF ∧ world1.residents = world.residents ++ [builtArea noise g location] ∧
      world1.areaCount = world.areaCount + 1 ∧
      world1.areaCapacity =
        if world.areaCount ≥ world.areaCapacity then
          (if world.areaCapacity = 0 then 8 else world.areaCapacity * 2)
        else world.areaCapacity := by
  obtain ⟨rest, e⟩ := h.layout
  generalize world.residents = L at e hfind
  subst e
  simp only [LoadOrGetAreaByLocation, GetAreaByLocalPos_eq h, residents_mk, hfind]
  cases rest with
  | nil =>
    have hcap : L.length < (if L.length = 0 then 8 else L.length * 2) := by
      split <;> omega
    refine ⟨⟨(L ++ [builtArea noise g location]).map some ++
        List.replicate ((if L.length = 0 then 8 else L.length * 2) - L.length - 1) none,
        (L ++ [builtArea noise g location]).length,
        ((L ++ [builtArea noise g location]).map some ++
          List.replicate ((if L.length = 0 then 8 else L.length * 2) - L.length - 1) none).length⟩,
        ?_, WF_mk _ _, residents_mk _ _ _, by simp, ?_⟩
    · simp only [List.append_nil, List.length_map, ge_iff_le, le_refl, if_true,
        reallocAreas_grow L _ hcap]
      rw [if_pos (by simp), set_layout_end]
      refine congrArg some (Prod.ext rfl ?_)
      simp only [List.length_append, List.length_map, List.length_replicate,
        List.length_singleton, List.length_cons, List.length_nil, InfinityWorld.mk.injEq,
        true_and]
      exact ⟨rfl, by omega⟩
    · simp only [List.append_nil, List.length_map, ge_iff_le, le_refl, if_true]
      simp only [List.length_append, List.length_map, List.length_replicate,
        List.length_singleton]
      omega
  | cons r rest =>
    refine ⟨⟨(L ++ [builtArea noise g location]).map some ++ rest,
        (L ++ [builtArea noise g location]).length,
        ((L ++ [builtArea noise g location]).map some ++ rest).length⟩,
        ?_, WF_mk _ _, residents_mk _ _ _, by simp, ?_⟩
    · have hnot : ¬ (L.length ≥ (L.map some ++ r :: rest).length) := by simp
      simp only [hnot, if_false]
      rw [if_pos (by simp), set_layout_end]
      simp [builtArea]
    · have hnot : ¬ (L.length ≥ (L.map some ++ r :: rest).length) := by simp
      simp only [hnot, if_false]
      simp


theorem UnloadFarAreas_spec (g : Globals) {world : InfinityWorld} (h : world.WF)
    (pos : Vector3) :
    ∃ (world1 : InfinityWorld) (U : List Area),
      UnloadFarAreas g world pos =
        some (world1, U.foldl (fun g a => (UnloadArea g world a).2) g) ∧
      world1.WF ∧ world1.areaCapacity = world.areaCapacity ∧
      world1.residents.Perm (world.residents.filter (fun a =>
        !Vector2DistanceGt (UnloadFarAreas.currentLocation pos) a.location
          FAR_AREA_LIMIT_DISTANCE)) ∧
      U.Perm (world.residents.filter (fun a =>
        Vector2DistanceGt (UnloadFarAreas.currentLocation pos) a.location
          FAR_AREA_LIMIT_DISTANCE)) := by
  obtain ⟨rest, e⟩ := h.layout
  obtain ⟨mid1, U, rest1, h1, h2, h3, h4⟩ :=
    UnloadFarAreas.evict_layout (UnloadFarAreas.currentLocation pos) world world.residents.length
      [] world.residents rest ((world.residents.map some ++ rest).length) g rfl
  simp only [List.nil_append, List.length_nil] at h1 h2
  rw [← e] at h1
  refine ⟨_, U, h1, ?_, ?_, ?_, h4⟩
  · rw [← h2]
    exact WF_mk mid1 rest1
  · conv_rhs => rw [e]
  · rw [residents_mk]
    exact h3

/-- Every reachable world is well formed. -/
theorem Reachable.wf {noise : Int → ℚ → ℚ → ℚ} {ok : Vector2 → Prop} {world : InfinityWorld}
    {g : Globals} (h : Reachable noise ok world g) : world.WF := by
  induction h with
  | create g seed => exact ⟨rfl, Nat.le_refl _, fun p hp => by simp [CreateInfinityWorld] at hp⟩
  | load location area world1 _ _ hload ih =>
    cases hfind : (InfinityWorld.residents _).find? (sameCell location) with
    | some a =>
      rw [LoadOrGetAreaByLocation_hit noise _ ih location a hfind] at hload
      simp only [Option.some.injEq, Prod.mk.injEq] at hload
      rw [← hload.2]
      exact ih
    | none =>
      obtain ⟨w1, e1, hwf, _⟩ := LoadOrGetAreaByLocation_miss noise _ ih location hfind
      rw [e1] at hload
      simp only [Option.some.injEq, Prod.mk.injEq] at hload
      rw [← hload.2]
      exact hwf
  | unload pos world1 g1 _ hun ih =>
    obtain ⟨w1, U, e1, hwf, _⟩ := UnloadFarAreas_spec _ ih pos
    rw [e1] at hun
    simp only [Option.some.injEq, Prod.mk.injEq] at hun
    rw [← hun.1]
    exact hwf


/-! ## The height grid filled by `LoadChunkNode` -/

theorem HeightGrid.get_put (h : HeightGrid) (x y : Nat) (v : ℚ) (hx : x < CHUNK_SIZE)
    (hy : y < CHUNK_SIZE) (a b : Nat) :
    (h.put x y v).get a b = if a = x ∧ b = y then v else h.get a b := by
  have hxl : x < h.rows.length := by rw [h.rows_length]; exact hx
  have hyl : y < (h.rows.getD x []).length := by
    rw [List.getD_eq_getElem _ _ hxl, h.row_length _ (List.getElem_mem _)]
    exact hy
  unfold HeightGrid.get HeightGrid.put
  simp only [List.getD_eq_getElem?_getD, List.getElem?_set]
  by_cases hax : a = x
  · subst hax
    by_cases hby : b = y
    · subst hby
      simp only [List.getD_eq_getElem?_getD] at hyl
      have hyl2 : b < h.rows[a].length := by
        simpa [List.getElem?_eq_getElem hxl] using hyl
      simp [hxl, List.getElem?_set, hyl2]
    · have hyb : ¬ y = b := fun e => hby e.symm
      simp [hxl, hby, hyb]
  · have hxa : ¬ x = a := fun e => hax e.symm
    simp [hax, hxa]

theorem LoadChunkNode.inner_heights (noise : Int → ℚ → ℚ → ℚ) (g : Globals) (node0 : ChunkNode)
    (ox oy : Int) (x : Nat) (hx : x < CHUNK_SIZE) (m : Nat) (hm : m ≤ CHUNK_SIZE)
    (node : ChunkNode) (a b : Nat) :
    (((List.range m).foldl (LoadChunkNode.body noise g ox oy x) node).heights).get a b =
      if a = x ∧ b < m then
        CalcHeightChunkNode noise g node0 ((ox + (x : Int) : Int) : ℚ) ((oy + (b : Int) : Int) : ℚ) 0 2
      else node.heights.get a b := by
  induction m with
  | zero => simp
  | succ m ih =>
    rw [List.range_succ, List.foldl_append, List.foldl_cons, List.foldl_nil]
    have hm1 : m < CHUNK_SIZE := hm
    simp only [LoadChunkNode.body]
    rw [HeightGrid.get_put _ _ _ _ hx hm1, ih (Nat.le_of_lt hm1)]
    by_cases hax : a = x
    · by_cases hbm : b = m
      · subst hax; subst hbm
        simp [CalcHeightChunkNode]
      · by_cases hlt : b < m
        · have : b < m + 1 := by omega
          simp [hax, hbm, hlt, this]
        · have : ¬ b < m + 1 := by omega
          simp [hax, hbm, hlt, this]
    · simp [hax]

theorem LoadChunkNode.outer_heights (noise : Int → ℚ → ℚ → ℚ) (g : Globals) (node0 : ChunkNode)
    (ox oy : Int) (k : Nat) (hk : k ≤ CHUNK_SIZE) (node : ChunkNode) (a b : Nat) :
    (((List.range k).foldl
        (fun node x => (List.range CHUNK_SIZE).foldl (LoadChunkNode.body noise g ox oy x) node)
        node).heights).get a b =
      if a < k ∧ b < CHUNK_SIZE then
        CalcHeightChunkNode noise g node0 ((ox + (a : Int) : Int) : ℚ) ((oy + (b : Int) : Int) : ℚ) 0 2
      else node.heights.get a b := by
  induction k with
  | zero => simp
  | succ k ih =>
    rw [List.range_succ, List.foldl_append, List.foldl_cons, List.foldl_nil]
    have hk1 : k < CHUNK_SIZE := hk
    rw [LoadChunkNode.inner_heights noise g node0 ox oy k hk1 CHUNK_SIZE (Nat.le_refl _),
      ih (Nat.le_of_lt hk1)]
    by_cases hak : a = k
    · subst hak
      by_cases hb : b < CHUNK_SIZE
      · simp [hb]
      · simp [hb]
    · by_cases hlt : a < k
      · have : a < k + 1 := by omega
        simp [hak, hlt, this]
      · have : ¬ a < k + 1 := by omega
        simp [hak, hlt, this]

/-- After `LoadChunkNode`, `heights[x][y]` is the height computed at the sample position of
the entry. -/
theorem LoadChunkNode_heights (noise : Int → ℚ → ℚ → ℚ) (g : Globals) (node : ChunkNode)
    (x y : Nat) (hx : x < CHUNK_SIZE) (hy : y < CHUNK_SIZE) :
    (LoadChunkNode noise g node).heights.get x y =
      CalcHeightChunkNode noise g node
        ((castInt (roundFloat32 (node.location.x * ((CHUNK_SIZE - 1 : Nat) : ℚ))) + (x : Int) : Int) : ℚ)
        ((castInt (roundFloat32 (node.location.y * ((CHUNK_SIZE - 1 : Nat) : ℚ))) + (y : Int) : Int) : ℚ) 0 2 := by
  unfold LoadChunkNode
  simp only []
  rw [LoadChunkNode.outer_heights noise g node _ _ CHUNK_SIZE (Nat.le_refl _)]
  simp [hx, hy]

theorem Clamp_bounds (value lo hi : ℚ) (h : lo ≤ hi) :
    lo ≤ Clamp value lo hi ∧ Clamp value lo hi ≤ hi := by
  unfold Clamp
  by_cases h1 : value < lo
  · simp only [h1, if_true]
    by_cases h2 : lo > hi
    · exact absurd h (not_le.mpr h2)
    · simp only [h2, if_false]
      exact ⟨le_refl _, h⟩
  · simp only [h1, if_false]
    by_cases h2 : value > hi
    · simp only [h2, if_true]
      exact ⟨h, le_refl _⟩
    · simp only [h2, if_false]
      exact ⟨not_lt.mp h1, not_lt.mp h2⟩


/-! ## Facts shared by the theorems on the world manager -/

theorem sameCell_of_location_eq {pos : Vector2} {area : Area} (h : area.location = pos) :
    sameCell pos area = true := by
  simp [sameCell, h]

theorem location_eq_of_sameCell {pos : Vector2} {area : Area} (hp : IsTileCoordinate pos)
    (ha : IsTileCoordinate area.location) (h : sameCell pos area = true) :
    area.location = pos := by
  simp only [sameCell, decide_eq_true_eq] at h
  have hx : area.location.x = pos.x := by rw [← ha.1, ← hp.1, h.1]
  have hy : area.location.y = pos.y := by rw [← ha.2, ← hp.2, h.2]
  cases hpos : pos
  cases hloc : area.location
  simp_all

theorem sameCell_iff (pos : Vector2) (area : Area) :
    sameCell pos area = true ↔ tileCoordinate area.location = tileCoordinate pos := by
  simp [sameCell, tileCoordinate, Prod.ext_iff]

theorem find?_eq_none_iff_tileCoordinate (L : List Area) (c : Vector2) :
    L.find? (sameCell c) = none ↔
      ∀ a ∈ L, tileCoordinate a.location ≠ tileCoordinate c := by
  rw [List.find?_eq_none]
  constructor
  · intro h a ha he
    exact h a ha ((sameCell_iff c a).mpr he)
  · intro h a ha hs
    exact h a ha ((sameCell_iff c a).mp hs)

theorem isTileCoordinate_intCast (a b : Int) : IsTileCoordinate ⟨(a : ℚ), (b : ℚ)⟩ :=
  ⟨by rw [castInt_intCast], by rw [castInt_intCast]⟩

theorem find?_append_built (L : List Area) (location : Vector2) (area : Area)
    (hloc : area.location = location) (hfind : L.find? (sameCell location) = none) :
    (L ++ [area]).find? (sameCell location) = some area := by
  rw [List.find?_append, hfind]
  simp [List.find?_cons, sameCell_of_location_eq hloc]

/-- Induction over the resident lists of the reachable worlds: a property of the empty
list that survives appending the tile built on a miss and survives keeping any
rearrangement of the tiles that are not far, holds of every reachable world. -/
theorem Reachable.residents_induction {noise : Int → ℚ → ℚ → ℚ} {ok : Vector2 → Prop}
    (P : List Area → Prop) (hnil : P [])
    (hload : ∀ (L : List Area) (g : Globals) (location : Vector2), ok location → P L →
      L.find? (sameCell location) = none → P (L ++ [builtArea noise g location]))
    (hunload : ∀ (L L1 : List Area) (cur : Vector2), P L →
      L1.Perm (L.filter (fun a => !Vector2DistanceGt cur a.location FAR_AREA_LIMIT_DISTANCE)) →
      P L1)
    {world : InfinityWorld} {g : Globals} (h : Reachable noise ok world g) :
    P world.residents := by
  induction h with
  | create g seed => exact hnil
  | load location area world1 hr hok hcall ih =>
    have hwf := hr.wf
    cases hfind : (InfinityWorld.residents _).find? (sameCell location) with
    | some a =>
      rw [LoadOrGetAreaByLocation_hit noise _ hwf location a hfind] at hcall
      simp only [Option.some.injEq, Prod.mk.injEq] at hcall
      rw [← hcall.2]
      exact ih
    | none =>
      obtain ⟨w1, e1, _, hres, _⟩ := LoadOrGetAreaByLocation_miss noise _ hwf location hfind
      rw [e1] at hcall
      simp only [Option.some.injEq, Prod.mk.injEq] at hcall
      rw [← hcall.2, hres]
      exact hload _ _ location hok ih hfind
  | unload pos world1 g1 hr hcall ih =>
    obtain ⟨w1, U, e1, _, _, hperm, _⟩ := UnloadFarAreas_spec _ hr.wf pos
    rw [e1] at hcall
    simp only [Option.some.injEq, Prod.mk.injEq] at hcall
    rw [← hcall.1]
    exact hunload _ _ _ ih hperm

/-! ## The sample world -/

theorem sampleWorld_wf : sampleWorld.WF := by
  refine ⟨rfl, by decide, ?_⟩
  intro p hp
  simp [sampleWorld] at hp
  rcases hp with rfl | rfl | rfl <;> rfl

theorem sampleWorld_residents :
    sampleWorld.residents = [sampleArea 0 0, sampleArea 7 (-2), sampleArea (-1) (-1)] := rfl

theorem wf_of_layout (L : List Area) (rest : List (Option Area)) (n cap : Nat)
    (hn : n = L.length) (hcap : cap = (L.map some ++ rest).length) :
    InfinityWorld.WF ⟨L.map some ++ rest, n, cap⟩ := by
  subst hn; subst hcap
  exact WF_mk L rest

theorem sample_step1 :
    LoadOrGetAreaByLocation sampleNoise sampleGlobals (CreateInfinityWorld ⟨0, []⟩ 12456).1
        ⟨((0 : Int) : ℚ), ((0 : Int) : ℚ)⟩ =
      some (sampleArea 0 0,
        ⟨[some (sampleArea 0 0), none, none, none, none, none, none, none], 1, 8⟩) := by
  have hwf : (CreateInfinityWorld ⟨0, []⟩ 12456).1.WF := wf_of_layout [] [] 0 0 rfl rfl
  obtain ⟨w1, e1, -, -, -, -⟩ := LoadOrGetAreaByLocation_miss sampleNoise sampleGlobals hwf
    ⟨((0 : Int) : ℚ), ((0 : Int) : ℚ)⟩ rfl
  simp only [LoadOrGetAreaByLocation, GetAreaByLocalPos_eq hwf]
  rfl

theorem sameCell_sampleArea (x y c d : Int) :
    sameCell ⟨(c : ℚ), (d : ℚ)⟩ (sampleArea x y) = decide (x = c ∧ y = d) := by
  simp [sameCell, sampleArea, builtArea, castInt_intCast]

theorem sample_step2 :
    LoadOrGetAreaByLocation sampleNoise sampleGlobals
        ⟨[some (sampleArea 0 0), none, none, none, none, none, none, none], 1, 8⟩
        ⟨((7 : Int) : ℚ), ((-2 : Int) : ℚ)⟩ =
      some (sampleArea 7 (-2),
        ⟨[some (sampleArea 0 0), some (sampleArea 7 (-2)), none, none, none, none, none, none],
          2, 8⟩) := by
  have hwf : InfinityWorld.WF
      ⟨[some (sampleArea 0 0), none, none, none, none, none, none, none], 1, 8⟩ :=
    wf_of_layout [sampleArea 0 0] [none, none, none, none, none, none, none] 1 8 rfl rfl
  have hfind : (InfinityWorld.residents
      ⟨[some (sampleArea 0 0), none, none, none, none, none, none, none], 1, 8⟩).find?
      (sameCell ⟨((7 : Int) : ℚ), ((-2 : Int) : ℚ)⟩) = none := by
    have : InfinityWorld.residents
      ⟨[some (sampleArea 0 0), none, none, none, none, none, none, none], 1, 8⟩ =
        [sampleArea 0 0] := rfl
    rw [this, List.find?_cons, sameCell_sampleArea]
    rfl
  simp only [LoadOrGetAreaByLocation, GetAreaByLocalPos_eq hwf, hfind]
  rfl

theorem sample_step3 :
    LoadOrGetAreaByLocation sampleNoise sampleGlobals
        ⟨[some (sampleArea 0 0), some (sampleArea 7 (-2)), none, none, none, none, none, none],
          2, 8⟩
        ⟨((-1 : Int) : ℚ), ((-1 : Int) : ℚ)⟩ =
      some (sampleArea (-1) (-1), sampleWorld) := by
  have hwf : InfinityWorld.WF
      ⟨[some (sampleArea 0 0), some (sampleArea 7 (-2)), none, none, none, none, none, none],
        2, 8⟩ :=
    wf_of_layout [sampleArea 0 0, sampleArea 7 (-2)] [none, none, none, none, none, none] 2 8
      rfl rfl
  have hfind : (InfinityWorld.residents
      ⟨[some (sampleArea 0 0), some (sampleArea 7 (-2)), none, none, none, none, none, none],
        2, 8⟩).find?
      (sameCell ⟨((-1 : Int) : ℚ), ((-1 : Int) : ℚ)⟩) = none := by
    have : InfinityWorld.residents
      ⟨[some (sampleArea 0 0), some (sampleArea 7 (-2)), none, none, none, none, none, none],
        2, 8⟩ = [sampleArea 0 0, sampleArea 7 (-2)] := rfl
    rw [this, List.find?_cons, sameCell_sampleArea, List.find?_cons, sameCell_sampleArea]
    rfl
  simp only [LoadOrGetAreaByLocation, GetAreaByLocalPos_eq hwf, hfind]
  rfl

/-- The sample world is reached by creating a world with seed 12456 and loading the tiles
at (0, 0), (7, -2) and (-1, -1). -/
theorem sampleWorld_reachable (ok : Vector2 → Prop) (h : ∀ a b : Int, ok ⟨(a : ℚ), (b : ℚ)⟩) :
    Reachable sampleNoise ok sampleWorld sampleGlobals :=
  Reachable.load _ _ _
    (Reachable.load _ _ _
      (Reachable.load _ _ _ (Reachable.create ⟨0, []⟩ 12456) (h 0 0) sample_step1)
      (h 7 (-2)) sample_step2)
    (h (-1) (-1)) sample_step3

/-! ## Theorems -/

/-- C1: on a well-formed world, two calls of `LoadOrGetAreaByLocation(world, c)` in a row
return the same Area, the second call leaves the world (its resident array included)
unchanged, and `areaCount` after the two calls is at most the original `areaCount` plus
one. -/
theorem load_or_get_twice (noise : Int → ℚ → ℚ → ℚ) (g : Globals) (world : InfinityWorld)
    (c : Vector2) (h : world.WF) :
    ∃ (area : Area) (world1 : InfinityWorld),
      LoadOrGetAreaByLocation noise g world c = some (area, world1) ∧
      LoadOrGetAreaByLocation noise g world1 c = some (area, world1) ∧
      world1.areaCount ≤ world.areaCount + 1 := by
  cases hfind : world.residents.find? (sameCell c) with
  | some a =>
    have e := LoadOrGetAreaByLocation_hit noise g h c a hfind
    exact ⟨a, world, e, e, Nat.le_succ _⟩
  | none =>
    obtain ⟨world1, e1, hwf, hres, hcount, _⟩ := LoadOrGetAreaByLocation_miss noise g h c hfind
    refine ⟨builtArea noise g c, world1, e1, ?_, Nat.le_of_eq hcount⟩
    apply LoadOrGetAreaByLocation_hit noise g hwf
    rw [hres]
    exact find?_append_built _ c _ rfl hfind

/-- C1, worked instance: the sample world, asked twice for the tile at (4, 5). -/
theorem load_or_get_twice_witness :
    sampleWorld.WF ∧
    ∃ (area : Area) (world1 : InfinityWorld),
      LoadOrGetAreaByLocation sampleNoise sampleGlobals sampleWorld ⟨4, 5⟩ =
        some (area, world1) ∧
      LoadOrGetAreaByLocation sampleNoise sampleGlobals world1 ⟨4, 5⟩ = some (area, world1) ∧
      world1.areaCount ≤ sampleWorld.areaCount + 1 :=
  ⟨sampleWorld_wf,
    load_or_get_twice sampleNoise sampleGlobals sampleWorld ⟨4, 5⟩ sampleWorld_wf⟩


/-- C2: in every world reachable from `CreateInfinityWorld` by calls of
`LoadOrGetAreaByLocation` at integer-valued coordinates and of `UnloadFarAreas`, every
resident tile has an integer-valued coordinate and no two distinct entries of
`areas[0..areaCount)` have the same coordinate, be it compared as stored or after
`(int)`. -/
theorem one_tile_per_coordinate (noise : Int → ℚ → ℚ → ℚ) (world : InfinityWorld) (g : Globals)
    (h : Reachable noise IsTileCoordinate world g) :
    (∀ a ∈ world.residents, IsTileCoordinate a.location) ∧
    world.residents.Pairwise (fun a b => a.location ≠ b.location) ∧
    world.residents.Pairwise
      (fun a b => tileCoordinate a.location ≠ tileCoordinate b.location) := by
  have key : (∀ a ∈ world.residents, IsTileCoordinate a.location) ∧
      world.residents.Pairwise
        (fun a b => tileCoordinate a.location ≠ tileCoordinate b.location) := by
    refine Reachable.residents_induction
      (fun L => (∀ a ∈ L, IsTileCoordinate a.location) ∧
        L.Pairwise (fun a b => tileCoordinate a.location ≠ tileCoordinate b.location))
      ?_ ?_ ?_ h
    · exact ⟨fun a ha => by simp at ha, List.Pairwise.nil⟩
    · intro L g location hok ⟨hint, hpw⟩ hfind
      constructor
      · intro a ha
        rcases List.mem_append.mp ha with ha | ha
        · exact hint a ha
        · rw [List.mem_singleton.mp ha]
          exact hok
      · rw [List.pairwise_append]
        refine ⟨hpw, List.pairwise_singleton _ _, ?_⟩
        intro a ha b hb
        rw [List.mem_singleton.mp hb]
        exact (find?_eq_none_iff_tileCoordinate L location).mp hfind a ha
    · intro L L1 cur ⟨hint, hpw⟩ hperm
      constructor
      · intro a ha
        exact hint a (List.mem_of_mem_filter (hperm.subset ha))
      · exact (hperm.pairwise_iff (fun hab e => hab e.symm)).mpr (hpw.filter _)
  refine ⟨key.1, ?_, key.2⟩
  exact key.2.imp (fun hne e => hne (by rw [e]))


/-- C2, worked instance: the sample world. -/
theorem one_tile_per_coordinate_witness :
    Reachable sampleNoise IsTileCoordinate sampleWorld sampleGlobals ∧
    (∀ a ∈ sampleWorld.residents, IsTileCoordinate a.location) ∧
    sampleWorld.residents.Pairwise (fun a b => a.location ≠ b.location) ∧
    sampleWorld.residents.Pairwise
      (fun a b => tileCoordinate a.location ≠ tileCoordinate b.location) :=
  ⟨sampleWorld_reachable IsTileCoordinate isTileCoordinate_intCast,
    one_tile_per_coordinate sampleNoise sampleWorld sampleGlobals
      (sampleWorld_reachable IsTileCoordinate isTileCoordinate_intCast)⟩


/-- The test of `UnloadFarAreas`, read on the Euclidean distance itself. -/
theorem Vector2DistanceGt_iff_sqrt (v1 v2 : Vector2) (limit : Nat) :
    Vector2DistanceGt v1 v2 limit = true ↔
      (limit : ℝ) < Real.sqrt ((Vector2DistanceSqr v1 v2 : ℚ) : ℝ) := by
  have hc : (limit : ℚ) * (limit : ℚ) < Vector2DistanceSqr v1 v2 ↔
      (((limit : ℚ) * (limit : ℚ) : ℚ) : ℝ) < ((Vector2DistanceSqr v1 v2 : ℚ) : ℝ) :=
    Rat.cast_lt.symm
  unfold Vector2DistanceGt
  rw [decide_eq_true_eq, Real.lt_sqrt (Nat.cast_nonneg _), gt_iff_lt, hc]
  push_cast
  rw [sq]

theorem Vector2DistanceGt_false_iff_sqrt (v1 v2 : Vector2) (limit : Nat) :
    (!Vector2DistanceGt v1 v2 limit) = true ↔
      Real.sqrt ((Vector2DistanceSqr v1 v2 : ℚ) : ℝ) ≤ (limit : ℝ) := by
  rw [← not_lt, ← Vector2DistanceGt_iff_sqrt]
  simp

/-- C3: on a well-formed world `UnloadFarAreas(world, pos)` returns, every tile resident
after it is at Euclidean distance at most `FAR_AREA_LIMIT_DISTANCE` (5) from the tile
coordinate computed from `pos`, and no tile that was resident before at distance greater
than 5 is still among `areas[0..areaCount)`. -/
theorem unload_far_leaves_only_near (g : Globals) (world : InfinityWorld) (pos : Vector3)
    (h : world.WF) :
    ∃ (world1 : InfinityWorld) (g1 : Globals),
      UnloadFarAreas g world pos = some (world1, g1) ∧
      (∀ a ∈ world1.residents,
        Real.sqrt ((Vector2DistanceSqr (UnloadFarAreas.currentLocation pos) a.location : ℚ) : ℝ)
          ≤ (FAR_AREA_LIMIT_DISTANCE : ℝ)) ∧
      (∀ a ∈ world.residents,
        (FAR_AREA_LIMIT_DISTANCE : ℝ) <
          Real.sqrt ((Vector2DistanceSqr (UnloadFarAreas.currentLocation pos) a.location : ℚ) : ℝ)
          → a ∉ world1.residents) ∧
      FAR_AREA_LIMIT_DISTANCE = 5 := by
  obtain ⟨world1, U, e, _, _, hperm, _⟩ := UnloadFarAreas_spec g h pos
  have hnear : ∀ a ∈ world1.residents,
      Real.sqrt ((Vector2DistanceSqr (UnloadFarAreas.currentLocation pos) a.location : ℚ) : ℝ)
        ≤ (FAR_AREA_LIMIT_DISTANCE : ℝ) := by
    intro a ha
    have := (List.mem_filter.mp (hperm.subset ha)).2
    exact (Vector2DistanceGt_false_iff_sqrt _ _ _).mp this
  refine ⟨world1, _, e, hnear, ?_, rfl⟩
  intro a _ hfar ha
  exact absurd (hnear a ha) (not_le.mpr hfar)

/-- C3, worked instance: the sample world, evicted around position (0, 10, 0). -/
theorem unload_far_leaves_only_near_witness :
    sampleWorld.WF ∧
    ∃ (world1 : InfinityWorld) (g1 : Globals),
      UnloadFarAreas sampleGlobals sampleWorld ⟨0, 10, 0⟩ = some (world1, g1) ∧
      (∀ a ∈ world1.residents,
        Real.sqrt ((Vector2DistanceSqr (UnloadFarAreas.currentLocation ⟨0, 10, 0⟩)
          a.location : ℚ) : ℝ) ≤ (FAR_AREA_LIMIT_DISTANCE : ℝ)) ∧
      (∀ a ∈ sampleWorld.residents,
        (FAR_AREA_LIMIT_DISTANCE : ℝ) <
          Real.sqrt ((Vector2DistanceSqr (UnloadFarAreas.currentLocation ⟨0, 10, 0⟩)
            a.location : ℚ) : ℝ)
          → a ∉ world1.residents) ∧
      FAR_AREA_LIMIT_DISTANCE = 5 :=
  ⟨sampleWorld_wf, unload_far_leaves_only_near sampleGlobals sampleWorld ⟨0, 10, 0⟩ sampleWorld_wf⟩

/-- The far test at the limit 5, on the squared distance. -/
theorem Vector2DistanceGt_limit (v1 v2 : Vector2) :
    Vector2DistanceGt v1 v2 FAR_AREA_LIMIT_DISTANCE = decide (25 < Vector2DistanceSqr v1 v2) := by
  unfold Vector2DistanceGt FAR_AREA_LIMIT_DISTANCE
  congr 1
  norm_num

/-- C4: on a well-formed world the swap-with-last loop of `UnloadFarAreas` neither skips
nor double-visits an entry.  The call returns; the tiles resident after it are, up to
order and counted with multiplicity, exactly the tiles resident before whose Euclidean
distance to the current coordinate is at most 5 (squared distance at most 25, so a tile at
distance exactly 5 is kept); and the globals after the call are those obtained by calling
`UnloadArea` once on each tile of a list `U` that is, up to order and with multiplicity,
exactly the list of the tiles resident before at distance greater than 5. -/
theorem unload_far_swap_remove_exact (g : Globals) (world : InfinityWorld) (pos : Vector3)
    (h : world.WF) :
    ∃ (world1 : InfinityWorld) (U : List Area),
      UnloadFarAreas g world pos =
        some (world1, U.foldl (fun g a => (UnloadArea g world a).2) g) ∧
      world1.residents.Perm (world.residents.filter (fun a =>
        decide (Vector2DistanceSqr (UnloadFarAreas.currentLocation pos) a.location ≤ 25))) ∧
      U.Perm (world.residents.filter (fun a =>
        decide (25 < Vector2DistanceSqr (UnloadFarAreas.currentLocation pos) a.location))) ∧
      (∀ v : Vector2,
        (Vector2DistanceSqr (UnloadFarAreas.currentLocation pos) v ≤ 25 ↔
          Real.sqrt ((Vector2DistanceSqr (UnloadFarAreas.currentLocation pos) v : ℚ) : ℝ) ≤ 5)) := by
  obtain ⟨world1, U, e, _, _, hperm, hU⟩ := UnloadFarAreas_spec g h pos
  refine ⟨world1, U, e, ?_, ?_, ?_⟩
  · have : (fun a : Area => !Vector2DistanceGt (UnloadFarAreas.currentLocation pos) a.location
        FAR_AREA_LIMIT_DISTANCE) = (fun a : Area =>
        decide (Vector2DistanceSqr (UnloadFarAreas.currentLocation pos) a.location ≤ 25)) := by
      funext a
      rw [Vector2DistanceGt_limit]
      by_cases hd : Vector2DistanceSqr (UnloadFarAreas.currentLocation pos) a.location ≤ 25
      · simp [hd, not_lt.mpr hd]
      · simp [hd, not_le.mp hd]
    rw [← this]
    exact hperm
  · have : (fun a : Area => Vector2DistanceGt (UnloadFarAreas.currentLocation pos) a.location
        FAR_AREA_LIMIT_DISTANCE) = (fun a : Area =>
        decide (25 < Vector2DistanceSqr (UnloadFarAreas.currentLocation pos) a.location)) := by
      funext a
      rw [Vector2DistanceGt_limit]
    rw [← this]
    exact hU
  · intro v
    have := Vector2DistanceGt_false_iff_sqrt (UnloadFarAreas.currentLocation pos) v
      FAR_AREA_LIMIT_DISTANCE
    rw [Vector2DistanceGt_limit] at this
    simpa [FAR_AREA_LIMIT_DISTANCE] using this

/-- C4, worked instance: the sample world, evicted around position (0, 10, 0). -/
theorem unload_far_swap_remove_exact_witness :
    sampleWorld.WF ∧
    ∃ (world1 : InfinityWorld) (U : List Area),
      UnloadFarAreas sampleGlobals sampleWorld ⟨0, 10, 0⟩ =
        some (world1, U.foldl (fun g a => (UnloadArea g sampleWorld a).2) sampleGlobals) ∧
      world1.residents.Perm (sampleWorld.residents.filter (fun a =>
        decide (Vector2DistanceSqr (UnloadFarAreas.currentLocation ⟨0, 10, 0⟩) a.location
          ≤ 25))) ∧
      U.Perm (sampleWorld.residents.filter (fun a =>
        decide (25 < Vector2DistanceSqr (UnloadFarAreas.currentLocation ⟨0, 10, 0⟩)
          a.location))) ∧
      (∀ v : Vector2,
        (Vector2DistanceSqr (UnloadFarAreas.currentLocation ⟨0, 10, 0⟩) v ≤ 25 ↔
          Real.sqrt ((Vector2DistanceSqr (UnloadFarAreas.currentLocation ⟨0, 10, 0⟩) v : ℚ) : ℝ)
            ≤ 5)) :=
  ⟨sampleWorld_wf,
    unload_far_swap_remove_exact sampleGlobals sampleWorld ⟨0, 10, 0⟩ sampleWorld_wf⟩


theorem find?_eq_none_of_location_ne {L : List Area} {c : Vector2} (hc : IsTileCoordinate c)
    (hres : ∀ a ∈ L, IsTileCoordinate a.location) (hmiss : ∀ a ∈ L, a.location ≠ c) :
    L.find? (sameCell c) = none := by
  rw [List.find?_eq_none]
  intro a ha hs
  exact hmiss a ha (location_eq_of_sameCell hc (hres a ha) hs)

theorem sampleWorld_integral : ∀ a ∈ sampleWorld.residents, IsTileCoordinate a.location := by
  intro a ha
  rw [sampleWorld_residents] at ha
  simp only [List.mem_cons, List.mem_singleton, List.not_mem_nil, or_false] at ha
  rcases ha with rfl | rfl | rfl <;> exact isTileCoordinate_intCast _ _

theorem tileCoordinate_sampleArea (x y : Int) :
    tileCoordinate (sampleArea x y).location = (x, y) := by
  simp [tileCoordinate, sampleArea, builtArea, castInt_intCast]

theorem tileCoordinate_intCast (x y : Int) : tileCoordinate ⟨(x : ℚ), (y : ℚ)⟩ = (x, y) := by
  simp [tileCoordinate, castInt_intCast]

/-- C5: on a well-formed world, for a coordinate `c` at which no tile is resident (no
resident tile has the tile coordinate of `c`; coordinates are compared as the lookup does,
after `(int)`, which on integer-valued coordinates is plain equality),
`LoadOrGetAreaByLocation(world, c)` returns an Area that was not resident, whose location
is `c` and whose chunk is loaded; the residents after the call are the residents before,
unchanged and in the same order, followed by that Area; `areaCount` has grown by exactly
one; and a following `GetAreaByLocalPos(world, c)` returns that same Area. -/
theorem load_on_miss_appends (noise : Int → ℚ → ℚ → ℚ) (g : Globals) (world : InfinityWorld)
    (c : Vector2) (h : world.WF)
    (hmiss : ∀ a ∈ world.residents, tileCoordinate a.location ≠ tileCoordinate c) :
    ∃ (area : Area) (world1 : InfinityWorld),
      LoadOrGetAreaByLocation noise g world c = some (area, world1) ∧
      area ∉ world.residents ∧ area.location = c ∧ area.chunkNode.isLoaded = true ∧
      world1.residents = world.residents ++ [area] ∧
      world1.areaCount = world.areaCount + 1 ∧
      GetAreaByLocalPos world1 c = some (some area, world1) := by
  have hfind := (find?_eq_none_iff_tileCoordinate world.residents c).mpr hmiss
  obtain ⟨world1, e1, hwf, hr, hcount, _⟩ := LoadOrGetAreaByLocation_miss noise g h c hfind
  refine ⟨builtArea noise g c, world1, e1, ?_, rfl, rfl, hr, hcount, ?_⟩
  · intro hmem
    exact hmiss _ hmem rfl
  · rw [GetAreaByLocalPos_eq hwf, hr, find?_append_built _ c _ rfl hfind]

/-- C5, worked instance: the sample world and the free coordinate (4, 5). -/
theorem load_on_miss_appends_witness :
    (sampleWorld.WF ∧
      (∀ a ∈ sampleWorld.residents,
        tileCoordinate a.location ≠ tileCoordinate ⟨((4 : Int) : ℚ), ((5 : Int) : ℚ)⟩)) ∧
    ∃ (area : Area) (world1 : InfinityWorld),
      LoadOrGetAreaByLocation sampleNoise sampleGlobals sampleWorld
        ⟨((4 : Int) : ℚ), ((5 : Int) : ℚ)⟩ = some (area, world1) ∧
      area ∉ sampleWorld.residents ∧ area.location = ⟨((4 : Int) : ℚ), ((5 : Int) : ℚ)⟩ ∧
      area.chunkNode.isLoaded = true ∧
      world1.residents = sampleWorld.residents ++ [area] ∧
      world1.areaCount = sampleWorld.areaCount + 1 ∧
      GetAreaByLocalPos world1 ⟨((4 : Int) : ℚ), ((5 : Int) : ℚ)⟩ = some (some area, world1) :=
  have hmiss : ∀ a ∈ sampleWorld.residents,
      tileCoordinate a.location ≠ tileCoordinate ⟨((4 : Int) : ℚ), ((5 : Int) : ℚ)⟩ := by
    intro a ha
    rw [sampleWorld_residents] at ha
    simp only [List.mem_cons, List.mem_singleton, List.not_mem_nil, or_false] at ha
    rcases ha with rfl | rfl | rfl <;>
      rw [tileCoordinate_sampleArea, tileCoordinate_intCast] <;> decide
  ⟨⟨sampleWorld_wf, hmiss⟩,
    load_on_miss_appends sampleNoise sampleGlobals sampleWorld _ sampleWorld_wf hmiss⟩

/-- C6: on a well-formed world `GetAreaByLocalPos(world, c)` returns, and the world after
the call is the world before it (resident array, `areaCount` and `areaCapacity` alike):
the lookup creates nothing.  It returns NULL if and only if no resident tile has the tile
coordinate of `c`, and otherwise a resident tile with the tile coordinate of `c`
(coordinates compared after `(int)`).  When `c` and the resident locations are
integer-valued, this reads: NULL if and only if no resident tile has coordinate `c`,
otherwise a resident tile whose coordinate is `c`. -/
theorem lookup_null_iff_absent (world : InfinityWorld) (c : Vector2) (h : world.WF) :
    ∃ found : Option Area,
      GetAreaByLocalPos world c = some (found, world) ∧
      (found = none ↔
        ∀ a ∈ world.residents, tileCoordinate a.location ≠ tileCoordinate c) ∧
      (∀ a, found = some a →
        a ∈ world.residents ∧ tileCoordinate a.location = tileCoordinate c) ∧
      (IsTileCoordinate c → (∀ a ∈ world.residents, IsTileCoordinate a.location) →
        (found = none ↔ ∀ a ∈ world.residents, a.location ≠ c) ∧
        (∀ a, found = some a → a ∈ world.residents ∧ a.location = c)) := by
  refine ⟨world.residents.find? (sameCell c), GetAreaByLocalPos_eq h c,
    find?_eq_none_iff_tileCoordinate _ c, ?_, ?_⟩
  · intro a ha
    exact ⟨List.mem_of_find?_eq_some ha, (sameCell_iff c a).mp (List.find?_some ha)⟩
  · intro hc hres
    refine ⟨⟨?_, find?_eq_none_of_location_ne hc hres⟩, ?_⟩
    · intro hnone a ha heq
      exact List.find?_eq_none.mp hnone a ha (sameCell_of_location_eq heq)
    · intro a ha
      have hmem := List.mem_of_find?_eq_some ha
      exact ⟨hmem, location_eq_of_sameCell hc (hres a hmem) (List.find?_some ha)⟩

/-- C6, worked instance: the sample world, looked up at (7, -2). -/
theorem lookup_null_iff_absent_witness :
    sampleWorld.WF ∧
    ∃ found : Option Area,
      GetAreaByLocalPos sampleWorld ⟨((7 : Int) : ℚ), ((-2 : Int) : ℚ)⟩ =
        some (found, sampleWorld) ∧
      (found = none ↔
        ∀ a ∈ sampleWorld.residents,
          tileCoordinate a.location ≠ tileCoordinate ⟨((7 : Int) : ℚ), ((-2 : Int) : ℚ)⟩) ∧
      (∀ a, found = some a →
        a ∈ sampleWorld.residents ∧
          tileCoordinate a.location = tileCoordinate ⟨((7 : Int) : ℚ), ((-2 : Int) : ℚ)⟩) ∧
      (IsTileCoordinate ⟨((7 : Int) : ℚ), ((-2 : Int) : ℚ)⟩ →
        (∀ a ∈ sampleWorld.residents, IsTileCoordinate a.location) →
        (found = none ↔
          ∀ a ∈ sampleWorld.residents, a.location ≠ ⟨((7 : Int) : ℚ), ((-2 : Int) : ℚ)⟩) ∧
        (∀ a, found = some a →
          a ∈ sampleWorld.residents ∧
            a.location = ⟨((7 : Int) : ℚ), ((-2 : Int) : ℚ)⟩)) :=
  ⟨sampleWorld_wf, lookup_null_iff_absent sampleWorld _ sampleWorld_wf⟩

theorem UnloadFarAreas.coordinate_eq (w : ℚ) : UnloadFarAreas.coordinate w = ⌈w / 500⌉ - 1 := by
  unfold UnloadFarAreas.coordinate CHUNK_SIZE CHUNK_TO_MESH_SCALE
  norm_num

theorem UnloadFarAreas.coordinate_eq_iff (w : ℚ) (k : Int) :
    UnloadFarAreas.coordinate w = k ↔ 500 * (k : ℚ) < w ∧ w ≤ 500 * ((k : ℚ) + 1) := by
  rw [UnloadFarAreas.coordinate_eq, sub_eq_iff_eq_add, Int.ceil_eq_iff]
  push_cast
  constructor
  · rintro ⟨h1, h2⟩
    constructor
    · have := (lt_div_iff₀ (by norm_num : (0 : ℚ) < 500)).mp h1
      linarith
    · have := (div_le_iff₀ (by norm_num : (0 : ℚ) < 500)).mp h2
      linarith
  · rintro ⟨h1, h2⟩
    constructor
    · rw [lt_div_iff₀ (by norm_num : (0 : ℚ) < 500)]
      linarith
    · rw [div_le_iff₀ (by norm_num : (0 : ℚ) < 500)]
      linarith

theorem Reachable.residents_loaded {noise : Int → ℚ → ℚ → ℚ} {ok : Vector2 → Prop}
    {world : InfinityWorld} {g : Globals} (h : Reachable noise ok world g) :
    ∀ a ∈ world.residents, a.chunkNode.isLoaded = true := by
  refine Reachable.residents_induction
    (fun L => ∀ a ∈ L, a.chunkNode.isLoaded = true) ?_ ?_ ?_ h
  · intro a ha
    simp at ha
  · intro L g location _ hL _ a ha
    rcases List.mem_append.mp ha with ha | ha
    · exact hL a ha
    · rw [List.mem_singleton.mp ha]
      rfl
  · intro L L1 cur hL hperm a ha
    exact hL a (List.mem_of_mem_filter (hperm.subset ha))

/-- The area that `UnloadArea` leaves behind has an unloaded chunk. -/
theorem UnloadArea_unloaded (g : Globals) (world : InfinityWorld) (area : Area) :
    (UnloadArea g world area).1.chunkNode.isLoaded = false := by
  cases h : area.chunkNode.isLoaded <;> simp [UnloadArea, UnloadChunkNode, h]

/-- C8: in every world reachable from `CreateInfinityWorld` by calls of
`LoadOrGetAreaByLocation` and `UnloadFarAreas`, every entry of `areas[0..areaCount)` has a
chunk with `isLoaded = true`.  Tiles are loaded before they are inserted: a further
`LoadOrGetAreaByLocation` returns a loaded tile.  Every tile that is unloaded is removed in
the same step: `UnloadArea` leaves the tile it is given with `isLoaded = false`, and after
a further `UnloadFarAreas` the tiles it passed to `UnloadArea` (those that were far) are,
as `UnloadArea` left them, no longer among the residents, which are all loaded. -/
theorem residents_are_loaded (noise : Int → ℚ → ℚ → ℚ) (world : InfinityWorld) (g : Globals)
    (h : Reachable noise (fun _ => True) world g) :
    (∀ a ∈ world.residents, a.chunkNode.isLoaded = true) ∧
    (∀ location : Vector2, ∃ (area : Area) (world1 : InfinityWorld),
      LoadOrGetAreaByLocation noise g world location = some (area, world1) ∧
      area.chunkNode.isLoaded = true ∧ area ∈ world1.residents ∧
      ∀ a ∈ world1.residents, a.chunkNode.isLoaded = true) ∧
    (∀ (g1 : Globals) (world1 : InfinityWorld) (area : Area),
      (UnloadArea g1 world1 area).1.chunkNode.isLoaded = false) ∧
    (∀ pos : Vector3, ∃ (world1 : InfinityWorld) (U : List Area),
      UnloadFarAreas g world pos =
        some (world1, U.foldl (fun g a => (UnloadArea g world a).2) g) ∧
      U.Perm (world.residents.filter (fun a =>
        Vector2DistanceGt (UnloadFarAreas.currentLocation pos) a.location
          FAR_AREA_LIMIT_DISTANCE)) ∧
      (∀ a ∈ world1.residents, a.chunkNode.isLoaded = true) ∧
      (∀ a ∈ U, ∀ g1 : Globals, (UnloadArea g1 world a).1 ∉ world1.residents)) := by
  have hinv := h.residents_loaded
  have hwf := h.wf
  refine ⟨hinv, ?_, UnloadArea_unloaded, ?_⟩
  · intro location
    cases hfind : world.residents.find? (sameCell location) with
    | some a =>
      exact ⟨a, world, LoadOrGetAreaByLocation_hit noise g hwf location a hfind,
        hinv a (List.mem_of_find?_eq_some hfind), List.mem_of_find?_eq_some hfind, hinv⟩
    | none =>
      obtain ⟨world1, e1, _, hres, _⟩ := LoadOrGetAreaByLocation_miss noise g hwf location hfind
      refine ⟨_, world1, e1, rfl, ?_, ?_⟩
      · rw [hres]
        simp
      · exact (Reachable.load location _ world1 h trivial e1).residents_loaded
  · intro pos
    obtain ⟨world1, U, e, _, _, _, hU⟩ := UnloadFarAreas_spec g hwf pos
    have hloaded1 : ∀ a ∈ world1.residents, a.chunkNode.isLoaded = true :=
      (Reachable.unload pos world1 _ h e).residents_loaded
    refine ⟨world1, U, e, hU, hloaded1, ?_⟩
    intro a _ g1 hmem
    have h1 := hloaded1 _ hmem
    rw [UnloadArea_unloaded] at h1
    exact absurd h1 (by simp)

/-- C8, worked instance: the sample world. -/
theorem residents_are_loaded_witness :
    Reachable sampleNoise (fun _ => True) sampleWorld sampleGlobals ∧
    ((∀ a ∈ sampleWorld.residents, a.chunkNode.isLoaded = true) ∧
    (∀ location : Vector2, ∃ (area : Area) (world1 : InfinityWorld),
      LoadOrGetAreaByLocation sampleNoise sampleGlobals sampleWorld location =
        some (area, world1) ∧
      area.chunkNode.isLoaded = true ∧ area ∈ world1.residents ∧
      ∀ a ∈ world1.residents, a.chunkNode.isLoaded = true) ∧
    (∀ (g1 : Globals) (world1 : InfinityWorld) (area : Area),
      (UnloadArea g1 world1 area).1.chunkNode.isLoaded = false) ∧
    (∀ pos : Vector3, ∃ (world1 : InfinityWorld) (U : List Area),
      UnloadFarAreas sampleGlobals sampleWorld pos =
        some (world1, U.foldl (fun g a => (UnloadArea g sampleWorld a).2) sampleGlobals) ∧
      U.Perm (sampleWorld.residents.filter (fun a =>
        Vector2DistanceGt (UnloadFarAreas.currentLocation pos) a.location
          FAR_AREA_LIMIT_DISTANCE)) ∧
      (∀ a ∈ world1.residents, a.chunkNode.isLoaded = true) ∧
      (∀ a ∈ U, ∀ g1 : Globals, (UnloadArea g1 sampleWorld a).1 ∉ world1.residents))) :=
  ⟨sampleWorld_reachable (fun _ => True) (fun _ _ => trivial),
    residents_are_loaded sampleNoise sampleWorld sampleGlobals
      (sampleWorld_reachable (fun _ => True) (fun _ _ => trivial))⟩

/-- C9: `UnloadChunkNode` is idempotent: applied a second time it changes neither the node
nor the globals; the node it leaves has `isLoaded = false`; it releases the height image
exactly when `isLoaded` was true, and nothing else; on a node whose `isLoaded` is already
false it is a no-op. -/
theorem unload_chunk_idempotent (g : Globals) (node : ChunkNode) :
    UnloadChunkNode (UnloadChunkNode g node).2 (UnloadChunkNode g node).1 =
      UnloadChunkNode g node ∧
    (UnloadChunkNode g node).1.isLoaded = false ∧
    (UnloadChunkNode g node).2.released =
      g.released ++ (if node.isLoaded then [Release.UnloadImage node.heightMap] else []) ∧
    (UnloadChunkNode g node).2.seed = g.seed ∧
    UnloadChunkNode g { node with isLoaded := false } = ({ node with isLoaded := false }, g) := by
  obtain ⟨location, heightMap, heights, isLoaded⟩ := node
  cases isLoaded <;> simp [UnloadChunkNode, Globals.release]

/-- C10: for bounds `min <= max`, `CalcHeightChunkNode` returns the sum of the three noise
octaves (scales 0.001, 0.01, 0.00009) clamped to `[min, max]`, a value between `min` and
`max`; and after `LoadChunkNode` every entry `heights[x][y]` with `x, y < CHUNK_SIZE` (100)
lies in `[0, 2]`. -/
theorem heights_are_clamped (noise : Int → ℚ → ℚ → ℚ) (g : Globals) (node : ChunkNode)
    (X Y : ℚ) (min max : Int) (x y : Nat) (hmm : min ≤ max) (hx : x < CHUNK_SIZE)
    (hy : y < CHUNK_SIZE) :
    CalcHeightChunkNode noise g node X Y min max =
      Clamp (noise g.seed (X * (1 / 1000)) (Y * (1 / 1000)) +
        noise g.seed (X * (1 / 100)) (Y * (1 / 100)) +
        noise g.seed (X * (9 / 100000)) (Y * (9 / 100000))) min max ∧
    (min : ℚ) ≤ CalcHeightChunkNode noise g node X Y min max ∧
    CalcHeightChunkNode noise g node X Y min max ≤ (max : ℚ) ∧
    CHUNK_SIZE = 100 ∧
    0 ≤ (LoadChunkNode noise g node).heights.get x y ∧
    (LoadChunkNode noise g node).heights.get x y ≤ 2 := by
  have key : ∀ (X Y : ℚ) (lo hi : Int), lo ≤ hi →
      (lo : ℚ) ≤ CalcHeightChunkNode noise g node X Y lo hi ∧
        CalcHeightChunkNode noise g node X Y lo hi ≤ (hi : ℚ) := by
    intro X Y lo hi hle
    exact Clamp_bounds _ _ _ (by exact_mod_cast hle)
  have hload := key
    ((castInt (roundFloat32 (node.location.x * ((CHUNK_SIZE - 1 : Nat) : ℚ))) + (x : Int) : Int) : ℚ)
    ((castInt (roundFloat32 (node.location.y * ((CHUNK_SIZE - 1 : Nat) : ℚ))) + (y : Int) : Int) : ℚ)
    0 2 (by decide)
  rw [← LoadChunkNode_heights noise g node x y hx hy] at hload
  refine ⟨rfl, (key X Y min max hmm).1, (key X Y min max hmm).2, rfl, ?_, ?_⟩
  · simpa using hload.1
  · simpa using hload.2

/-- C10, worked instance: bounds 0 and 2 at the sample position (250, -40), and the entry
`heights[99][0]` of the tile loaded at (1, -1). -/
theorem heights_are_clamped_witness :
    ((0 : Int) ≤ 2 ∧ 99 < CHUNK_SIZE ∧ 0 < CHUNK_SIZE) ∧
    (CalcHeightChunkNode sampleNoise sampleGlobals (CreateChunkNode ⟨1, -1⟩) 250 (-40) 0 2 =
      Clamp (sampleNoise sampleGlobals.seed (250 * (1 / 1000)) (-40 * (1 / 1000)) +
        sampleNoise sampleGlobals.seed (250 * (1 / 100)) (-40 * (1 / 100)) +
        sampleNoise sampleGlobals.seed (250 * (9 / 100000)) (-40 * (9 / 100000)))
        ((0 : Int) : ℚ) ((2 : Int) : ℚ) ∧
    ((0 : Int) : ℚ) ≤
      CalcHeightChunkNode sampleNoise sampleGlobals (CreateChunkNode ⟨1, -1⟩) 250 (-40) 0 2 ∧
    CalcHeightChunkNode sampleNoise sampleGlobals (CreateChunkNode ⟨1, -1⟩) 250 (-40) 0 2 ≤
      ((2 : Int) : ℚ) ∧
    CHUNK_SIZE = 100 ∧
    0 ≤ (LoadChunkNode sampleNoise sampleGlobals (CreateChunkNode ⟨1, -1⟩)).heights.get 99 0 ∧
    (LoadChunkNode sampleNoise sampleGlobals (CreateChunkNode ⟨1, -1⟩)).heights.get 99 0 ≤ 2) :=
  ⟨⟨by decide, by decide, by decide⟩,
    heights_are_clamped sampleNoise sampleGlobals (CreateChunkNode ⟨1, -1⟩) 250 (-40) 0 2 99 0
      (by decide) (by decide) (by decide)⟩


/-! ## Loading a tile at an integer coordinate -/

theorem castInt_mul_chunk (c : Int) (h : |c| ≤ 169466) :
    castInt (roundFloat32 ((c : ℚ) * ((CHUNK_SIZE - 1 : Nat) : ℚ))) =
      c * ((CHUNK_SIZE : Int) - 1) := by
  have e : (c : ℚ) * ((CHUNK_SIZE - 1 : Nat) : ℚ) = ((c * ((CHUNK_SIZE : Int) - 1) : Int) : ℚ) := by
    simp [CHUNK_SIZE]
  have hsmall : |c * ((CHUNK_SIZE : Int) - 1)| < 2 ^ 24 := by
    have h99 : ((CHUNK_SIZE : Int) - 1) = 99 := by simp [CHUNK_SIZE]
    rw [h99, abs_mul]
    have : |(99 : Int)| = 99 := by norm_num
    rw [this]
    have h0 : (0 : Int) ≤ |c| := abs_nonneg c
    norm_num
    omega
  rw [e, roundFloat32_intCast _ hsmall, castInt_intCast]

theorem LoadChunkNode_heights_at (noise : Int → ℚ → ℚ → ℚ) (g : Globals) (node : ChunkNode)
    (cx cy : Int) (x y : Nat) (hloc : node.location = ⟨(cx : ℚ), (cy : ℚ)⟩)
    (hcx : |cx| ≤ 169466) (hcy : |cy| ≤ 169466)
    (hx : x < CHUNK_SIZE) (hy : y < CHUNK_SIZE) :
    (LoadChunkNode noise g node).heights.get x y =
      CalcHeightChunkNode noise g node
        ((cx * ((CHUNK_SIZE : Int) - 1) + (x : Int) : Int) : ℚ)
        ((cy * ((CHUNK_SIZE : Int) - 1) + (y : Int) : Int) : ℚ) 0 2 := by
  rw [LoadChunkNode_heights noise g node x y hx hy, hloc]
  simp only [castInt_mul_chunk cx hcx, castInt_mul_chunk cy hcy]

/-- The float32 product `169467 * 99`: the exact 16777233 lies halfway between the float32
values 16777232 and 16777234 and is rounded to the even one. -/
theorem roundFloat32_origin_169467 :
    roundFloat32 (((169467 : Int) : ℚ) * ((CHUNK_SIZE - 1 : Nat) : ℚ)) = ((16777232 : Int) : ℚ) := by
  have e : ((169467 : Int) : ℚ) * ((CHUNK_SIZE - 1 : Nat) : ℚ) = 16777233 := by
    simp [CHUNK_SIZE]
    norm_num
  rw [e, roundFloat32_of_exponent (e := 24) (by norm_num) (by norm_num) (by norm_num)]
  have hfloor : ⌊(16777233 : ℚ) / 2⌋ = 8388616 := by
    rw [Int.floor_eq_iff]
    norm_num
  have hr : roundHalfEven ((16777233 : ℚ) / 2) = 8388616 := by
    unfold roundHalfEven
    simp only [hfloor]
    norm_num
  norm_num
  rw [hr]
  norm_num

/-- The float32 product `169468 * 99` is exact: 16777332 is even. -/
theorem roundFloat32_origin_169468 :
    roundFloat32 (((169468 : Int) : ℚ) * ((CHUNK_SIZE - 1 : Nat) : ℚ)) = ((16777332 : Int) : ℚ) := by
  have e : ((169468 : Int) : ℚ) * ((CHUNK_SIZE - 1 : Nat) : ℚ) = 16777332 := by
    simp [CHUNK_SIZE]
    norm_num
  rw [e, roundFloat32_of_exponent (e := 24) (by norm_num) (by norm_num) (by norm_num)]
  have hr : roundHalfEven (8388666 : ℚ) = 8388666 := by
    have := roundHalfEven_intCast 8388666
    norm_num at this
    exact this
  norm_num
  rw [hr]
  norm_num

theorem roundFloat32_origin_zero :
    roundFloat32 (((0 : Int) : ℚ) * ((CHUNK_SIZE - 1 : Nat) : ℚ)) = ((0 : Int) : ℚ) := by
  simp [roundFloat32]

/-- C11, as stated, fails: at the integer coordinate (169467, 0) the float32 product
`169467 * 99` is rounded to 16777232, one less than `169467 * 99` = 16777233, and with the
noise `x / 100000` the entry `heights[0][0]` differs from `CalcHeightChunkNode` at the
claimed sample position. -/
theorem load_origin_rounds :
    castInt (roundFloat32 (((169467 : Int) : ℚ) * ((CHUNK_SIZE - 1 : Nat) : ℚ))) = 16777232 ∧
    (169467 : Int) * ((CHUNK_SIZE : Int) - 1) = 16777233 ∧
    ¬ ∀ (noise : Int → ℚ → ℚ → ℚ) (g : Globals) (node : ChunkNode) (cx cy : Int) (x y : Nat),
      node.location = ⟨(cx : ℚ), (cy : ℚ)⟩ → x < CHUNK_SIZE → y < CHUNK_SIZE →
      (LoadChunkNode noise g node).heights.get x y =
        CalcHeightChunkNode noise g node
          ((cx * ((CHUNK_SIZE : Int) - 1) + (x : Int) : Int) : ℚ)
          ((cy * ((CHUNK_SIZE : Int) - 1) + (y : Int) : Int) : ℚ) 0 2 := by
  refine ⟨by rw [roundFloat32_origin_169467, castInt_intCast], by simp [CHUNK_SIZE], ?_⟩
  intro hall
  have h := hall (fun _ x _ => x / 100000) ⟨0, []⟩
    (CreateChunkNode ⟨((169467 : Int) : ℚ), ((0 : Int) : ℚ)⟩) 169467 0 0 0 rfl
    (by decide) (by decide)
  rw [LoadChunkNode_heights _ _ _ 0 0 (by decide) (by decide)] at h
  simp only [CreateChunkNode, roundFloat32_origin_169467, roundFloat32_origin_zero,
    castInt_intCast] at h
  norm_num [CalcHeightChunkNode, Clamp, CHUNK_SIZE, LANDSCAPE_NOISE_SMALL,
    LANDSCAPE_NOISE_MEDIUM, LANDSCAPE_NOISE_BIG] at h

/-- C11, amended: for a tile with integer coordinate `(cx, cy)`, `|cx|, |cy| <= 169466` (so
that `coordinate * 99` stays below `2^24` and the float32 product is exact), after
`LoadChunkNode` the tile is marked loaded and, for all `x, y < CHUNK_SIZE` (100),
`heights[x][y]` is `CalcHeightChunkNode` at the sample position
`(cx * (CHUNK_SIZE - 1) + x, cy * (CHUNK_SIZE - 1) + y)` with bounds 0 and 2. -/
theorem load_fills_grid (noise : Int → ℚ → ℚ → ℚ) (g : Globals) (node : ChunkNode)
    (cx cy : Int) (x y : Nat) (hloc : node.location = ⟨(cx : ℚ), (cy : ℚ)⟩)
    (hcx : |cx| ≤ 169466) (hcy : |cy| ≤ 169466)
    (hx : x < CHUNK_SIZE) (hy : y < CHUNK_SIZE) :
    (LoadChunkNode noise g node).isLoaded = true ∧ CHUNK_SIZE = 100 ∧
    (LoadChunkNode noise g node).heights.get x y =
      CalcHeightChunkNode noise g node
        ((cx * ((CHUNK_SIZE : Int) - 1) + (x : Int) : Int) : ℚ)
        ((cy * ((CHUNK_SIZE : Int) - 1) + (y : Int) : Int) : ℚ) 0 2 :=
  ⟨rfl, rfl, LoadChunkNode_heights_at noise g node cx cy x y hloc hcx hcy hx hy⟩

/-- C11, worked instance: the entry `heights[99][42]` of the tile created at (3, -2). -/
theorem load_fills_grid_witness :
    ((CreateChunkNode ⟨((3 : Int) : ℚ), ((-2 : Int) : ℚ)⟩).location =
        ⟨((3 : Int) : ℚ), ((-2 : Int) : ℚ)⟩ ∧ |(3 : Int)| ≤ 169466 ∧ |(-2 : Int)| ≤ 169466 ∧
      99 < CHUNK_SIZE ∧ 42 < CHUNK_SIZE) ∧
    ((LoadChunkNode sampleNoise sampleGlobals
        (CreateChunkNode ⟨((3 : Int) : ℚ), ((-2 : Int) : ℚ)⟩)).isLoaded = true ∧
      CHUNK_SIZE = 100 ∧
      (LoadChunkNode sampleNoise sampleGlobals
          (CreateChunkNode ⟨((3 : Int) : ℚ), ((-2 : Int) : ℚ)⟩)).heights.get 99 42 =
        CalcHeightChunkNode sampleNoise sampleGlobals
          (CreateChunkNode ⟨((3 : Int) : ℚ), ((-2 : Int) : ℚ)⟩)
          ((3 * ((CHUNK_SIZE : Int) - 1) + ((99 : Nat) : Int) : Int) : ℚ)
          (((-2) * ((CHUNK_SIZE : Int) - 1) + ((42 : Nat) : Int) : Int) : ℚ) 0 2) :=
  ⟨⟨rfl, by decide, by decide, by decide, by decide⟩,
    load_fills_grid sampleNoise sampleGlobals
      (CreateChunkNode ⟨((3 : Int) : ℚ), ((-2 : Int) : ℚ)⟩) 3 (-2) 99 42 rfl
      (by decide) (by decide) (by decide) (by decide)⟩

/-- C16, as stated, fails: with the noise `x / 100000`, row 99 of the tile at (169467, 0)
is sampled from the rounded origin 16777232, at 16777331, while row 0 of the tile at
(169468, 0) is sampled at 16777332, and the two border entries differ. -/
theorem border_not_shared_when_rounded :
    ¬ ∀ (noise : Int → ℚ → ℚ → ℚ) (g : Globals) (node nodeX nodeY : ChunkNode) (cx cy : Int)
      (k : Nat),
      node.location = ⟨(cx : ℚ), (cy : ℚ)⟩ →
      nodeX.location = ⟨((cx + 1 : Int) : ℚ), (cy : ℚ)⟩ →
      nodeY.location = ⟨(cx : ℚ), ((cy + 1 : Int) : ℚ)⟩ →
      k < CHUNK_SIZE →
      (LoadChunkNode noise g node).heights.get 99 k =
        (LoadChunkNode noise g nodeX).heights.get 0 k ∧
      (LoadChunkNode noise g node).heights.get k 99 =
        (LoadChunkNode noise g nodeY).heights.get k 0 := by
  intro hall
  have h := (hall (fun _ x _ => x / 100000) ⟨0, []⟩
    (CreateChunkNode ⟨((169467 : Int) : ℚ), ((0 : Int) : ℚ)⟩)
    (CreateChunkNode ⟨((169468 : Int) : ℚ), ((0 : Int) : ℚ)⟩)
    (CreateChunkNode ⟨((169467 : Int) : ℚ), ((1 : Int) : ℚ)⟩) 169467 0 0 rfl rfl rfl
    (by decide)).1
  rw [LoadChunkNode_heights _ _ _ 99 0 (by decide) (by decide),
    LoadChunkNode_heights _ _ _ 0 0 (by decide) (by decide)] at h
  simp only [CreateChunkNode, roundFloat32_origin_169467, roundFloat32_origin_169468,
    roundFloat32_origin_zero, castInt_intCast] at h
  norm_num [CalcHeightChunkNode, Clamp, CHUNK_SIZE, LANDSCAPE_NOISE_SMALL,
    LANDSCAPE_NOISE_MEDIUM, LANDSCAPE_NOISE_BIG] at h

/-- C16, amended: adjacent tiles share their border samples as long as the origins are
exact.  For integer tile coordinates with `|cx|, |cx + 1|, |cy|, |cy + 1| <= 169466` and
every `k < 100`, after loading, `heights[99][k]` of the tile at `(cx, cy)` equals
`heights[0][k]` of the tile at `(cx + 1, cy)`, and `heights[k][99]` of the tile at
`(cx, cy)` equals `heights[k][0]` of the tile at `(cx, cy + 1)`. -/
theorem adjacent_tiles_share_border (noise : Int → ℚ → ℚ → ℚ) (g : Globals)
    (node nodeX nodeY : ChunkNode) (cx cy : Int) (k : Nat)
    (hnode : node.location = ⟨(cx : ℚ), (cy : ℚ)⟩)
    (hnodeX : nodeX.location = ⟨((cx + 1 : Int) : ℚ), (cy : ℚ)⟩)
    (hnodeY : nodeY.location = ⟨(cx : ℚ), ((cy + 1 : Int) : ℚ)⟩)
    (hcx : |cx| ≤ 169466) (hcx1 : |cx + 1| ≤ 169466)
    (hcy : |cy| ≤ 169466) (hcy1 : |cy + 1| ≤ 169466)
    (hk : k < CHUNK_SIZE) :
    (LoadChunkNode noise g node).heights.get 99 k =
      (LoadChunkNode noise g nodeX).heights.get 0 k ∧
    (LoadChunkNode noise g node).heights.get k 99 =
      (LoadChunkNode noise g nodeY).heights.get k 0 := by
  have h99 : 99 < CHUNK_SIZE := by decide
  have h0 : 0 < CHUNK_SIZE := by decide
  constructor
  · rw [LoadChunkNode_heights_at noise g node cx cy 99 k hnode hcx hcy h99 hk,
      LoadChunkNode_heights_at noise g nodeX (cx + 1) cy 0 k hnodeX hcx1 hcy h0 hk]
    simp only [CalcHeightChunkNode, CHUNK_SIZE]
    have e : cx * (((100 : Nat) : Int) - 1) + ((99 : Nat) : Int) =
        (cx + 1) * (((100 : Nat) : Int) - 1) + ((0 : Nat) : Int) := by
      push_cast
      ring
    rw [e]
  · rw [LoadChunkNode_heights_at noise g node cx cy k 99 hnode hcx hcy hk h99,
      LoadChunkNode_heights_at noise g nodeY cx (cy + 1) k 0 hnodeY hcx hcy1 hk h0]
    simp only [CalcHeightChunkNode, CHUNK_SIZE]
    have e : cy * (((100 : Nat) : Int) - 1) + ((99 : Nat) : Int) =
        (cy + 1) * (((100 : Nat) : Int) - 1) + ((0 : Nat) : Int) := by
      push_cast
      ring
    rw [e]

/-- C16, worked instance: the tiles at (3, -2), (4, -2) and (3, -1), border index 42. -/
theorem adjacent_tiles_share_border_witness :
    ((CreateChunkNode ⟨((3 : Int) : ℚ), ((-2 : Int) : ℚ)⟩).location =
        ⟨((3 : Int) : ℚ), ((-2 : Int) : ℚ)⟩ ∧
      (CreateChunkNode ⟨((3 + 1 : Int) : ℚ), ((-2 : Int) : ℚ)⟩).location =
        ⟨((3 + 1 : Int) : ℚ), ((-2 : Int) : ℚ)⟩ ∧
      (CreateChunkNode ⟨((3 : Int) : ℚ), ((-2 + 1 : Int) : ℚ)⟩).location =
        ⟨((3 : Int) : ℚ), ((-2 + 1 : Int) : ℚ)⟩ ∧
      |(3 : Int)| ≤ 169466 ∧ |(3 + 1 : Int)| ≤ 169466 ∧
      |(-2 : Int)| ≤ 169466 ∧ |(-2 + 1 : Int)| ≤ 169466 ∧ 42 < CHUNK_SIZE) ∧
    ((LoadChunkNode sampleNoise sampleGlobals
        (CreateChunkNode ⟨((3 : Int) : ℚ), ((-2 : Int) : ℚ)⟩)).heights.get 99 42 =
      (LoadChunkNode sampleNoise sampleGlobals
        (CreateChunkNode ⟨((3 + 1 : Int) : ℚ), ((-2 : Int) : ℚ)⟩)).heights.get 0 42 ∧
    (LoadChunkNode sampleNoise sampleGlobals
        (CreateChunkNode ⟨((3 : Int) : ℚ), ((-2 : Int) : ℚ)⟩)).heights.get 42 99 =
      (LoadChunkNode sampleNoise sampleGlobals
        (CreateChunkNode ⟨((3 : Int) : ℚ), ((-2 + 1 : Int) : ℚ)⟩)).heights.get 42 0) :=
  ⟨⟨rfl, rfl, rfl, by decide, by decide, by decide, by decide, by decide⟩,
    adjacent_tiles_share_border sampleNoise sampleGlobals
      (CreateChunkNode ⟨((3 : Int) : ℚ), ((-2 : Int) : ℚ)⟩)
      (CreateChunkNode ⟨((3 + 1 : Int) : ℚ), ((-2 : Int) : ℚ)⟩)
      (CreateChunkNode ⟨((3 : Int) : ℚ), ((-2 + 1 : Int) : ℚ)⟩) 3 (-2) 42 rfl rfl rfl
      (by decide) (by decide) (by decide) (by decide) (by decide)⟩

/-! ## Releasing a tile -/

/-- C15: for a loaded tile, `UnloadArea` hands back, in this order and nothing else: the
height image, the texture, the model, the mesh struct, the model struct and the chunk node.
The height image is released exactly once: `chunkNode->Unload` releases it and leaves
`isLoaded = false`, so `DestroyChunkNode` on that node only frees the node; the texture and
the model are each released exactly once too. -/
theorem unload_area_releases_once (g : Globals) (world : InfinityWorld) (area : Area)
    (h : area.chunkNode.isLoaded = true) :
    (UnloadArea g world area).2.released =
      g.released ++
        [Release.UnloadImage area.chunkNode.heightMap,
         Release.UnloadTexture area.model.diffuse,
         Release.UnloadModel area.model,
         Release.freeMesh area.mesh,
         Release.freeModel area.model,
         Release.freeChunkNode { area.chunkNode with isLoaded := false }] ∧
    ((UnloadArea g world area).2.released.drop g.released.length).countP
      Release.isUnloadImage = 1 ∧
    ((UnloadArea g world area).2.released.drop g.released.length).countP
      Release.isUnloadTexture = 1 ∧
    ((UnloadArea g world area).2.released.drop g.released.length).countP
      Release.isUnloadModel = 1 ∧
    (UnloadChunkNode g area.chunkNode).1.isLoaded = false ∧
    (DestroyChunkNode (UnloadChunkNode g area.chunkNode).2
        (UnloadChunkNode g area.chunkNode).1).released =
      (UnloadChunkNode g area.chunkNode).2.released ++
        [Release.freeChunkNode (UnloadChunkNode g area.chunkNode).1] := by
  have hlog : (UnloadArea g world area).2.released =
      g.released ++
        [Release.UnloadImage area.chunkNode.heightMap,
         Release.UnloadTexture area.model.diffuse,
         Release.UnloadModel area.model,
         Release.freeMesh area.mesh,
         Release.freeModel area.model,
         Release.freeChunkNode { area.chunkNode with isLoaded := false }] := by
    simp [UnloadArea, UnloadChunkNode, DestroyChunkNode, Globals.release, h]
  refine ⟨hlog, ?_, ?_, ?_, ?_, ?_⟩
  · rw [hlog, List.drop_left]
    rfl
  · rw [hlog, List.drop_left]
    rfl
  · rw [hlog, List.drop_left]
    rfl
  · simp [UnloadChunkNode, h]
  · simp [UnloadChunkNode, DestroyChunkNode, Globals.release, h]

/-- C15, worked instance: the sample tile at (0, 0), released from the sample globals. -/
theorem unload_area_releases_once_witness :
    (sampleArea 0 0).chunkNode.isLoaded = true ∧
    ((UnloadArea sampleGlobals sampleWorld (sampleArea 0 0)).2.released =
      sampleGlobals.released ++
        [Release.UnloadImage (sampleArea 0 0).chunkNode.heightMap,
         Release.UnloadTexture (sampleArea 0 0).model.diffuse,
         Release.UnloadModel (sampleArea 0 0).model,
         Release.freeMesh (sampleArea 0 0).mesh,
         Release.freeModel (sampleArea 0 0).model,
         Release.freeChunkNode { (sampleArea 0 0).chunkNode with isLoaded := false }] ∧
    ((UnloadArea sampleGlobals sampleWorld (sampleArea 0 0)).2.released.drop
      sampleGlobals.released.length).countP Release.isUnloadImage = 1 ∧
    ((UnloadArea sampleGlobals sampleWorld (sampleArea 0 0)).2.released.drop
      sampleGlobals.released.length).countP Release.isUnloadTexture = 1 ∧
    ((UnloadArea sampleGlobals sampleWorld (sampleArea 0 0)).2.released.drop
      sampleGlobals.released.length).countP Release.isUnloadModel = 1 ∧
    (UnloadChunkNode sampleGlobals (sampleArea 0 0).chunkNode).1.isLoaded = false ∧
    (DestroyChunkNode (UnloadChunkNode sampleGlobals (sampleArea 0 0).chunkNode).2
        (UnloadChunkNode sampleGlobals (sampleArea 0 0).chunkNode).1).released =
      (UnloadChunkNode sampleGlobals (sampleArea 0 0).chunkNode).2.released ++
        [Release.freeChunkNode (UnloadChunkNode sampleGlobals (sampleArea 0 0).chunkNode).1]) :=
  ⟨rfl, unload_area_releases_once sampleGlobals sampleWorld (sampleArea 0 0) rfl⟩


/-! ## Induction over the reachable worlds, step by step -/

theorem UnloadArea_seed (g : Globals) (world : InfinityWorld) (area : Area) :
    (UnloadArea g world area).2.seed = g.seed := by
  cases h : area.chunkNode.isLoaded <;>
    simp [UnloadArea, UnloadChunkNode, DestroyChunkNode, Globals.release, h]

theorem foldl_UnloadArea_seed (world : InfinityWorld) (U : List Area) (g : Globals) :
    (U.foldl (fun g a => (UnloadArea g world a).2) g).seed = g.seed := by
  induction U generalizing g with
  | nil => rfl
  | cons a U ih => rw [List.foldl_cons, ih, UnloadArea_seed]

/-- Induction over the reachable worlds with their globals: a property that holds after
`CreateInfinityWorld`, survives a load that misses and survives an eviction, holds of
every reachable world (a load that hits changes nothing). -/
theorem Reachable.step_induction {noise : Int → ℚ → ℚ → ℚ} {ok : Vector2 → Prop}
    (P : InfinityWorld → Globals → Prop)
    (hcreate : ∀ (g : Globals) (seed : Int),
      P (CreateInfinityWorld g seed).1 (CreateInfinityWorld g seed).2)
    (hmiss : ∀ (world world1 : InfinityWorld) (g : Globals) (location : Vector2),
      world.WF → P world g → ok location →
      world1.WF → world1.residents = world.residents ++ [builtArea noise g location] →
      world1.areaCount = world.areaCount + 1 →
      world1.areaCapacity =
        (if world.areaCount ≥ world.areaCapacity then
          (if world.areaCapacity = 0 then 8 else world.areaCapacity * 2)
        else world.areaCapacity) →
      P world1 g)
    (hunload : ∀ (world world1 : InfinityWorld) (g : Globals) (pos : Vector3) (U : List Area),
      world.WF → P world g → world1.WF → world1.areaCapacity = world.areaCapacity →
      world1.residents.Perm (world.residents.filter (fun a =>
        !Vector2DistanceGt (UnloadFarAreas.currentLocation pos) a.location
          FAR_AREA_LIMIT_DISTANCE)) →
      P world1 (U.foldl (fun g a => (UnloadArea g world a).2) g))
    {world : InfinityWorld} {g : Globals} (h : Reachable noise ok world g) : P world g := by
  induction h with
  | create g seed => exact hcreate g seed
  | load location area world1 hr hok hcall ih =>
    have hwf := hr.wf
    cases hfind : (InfinityWorld.residents _).find? (sameCell location) with
    | some a =>
      rw [LoadOrGetAreaByLocation_hit noise _ hwf location a hfind] at hcall
      simp only [Option.some.injEq, Prod.mk.injEq] at hcall
      rw [← hcall.2]
      exact ih
    | none =>
      obtain ⟨w1, e1, hwf1, hres, hcount, hcap⟩ :=
        LoadOrGetAreaByLocation_miss noise _ hwf location hfind
      rw [e1] at hcall
      simp only [Option.some.injEq, Prod.mk.injEq] at hcall
      rw [← hcall.2]
      exact hmiss _ _ _ location hwf ih hok hwf1 hres hcount hcap
  | unload pos world1 g1 hr hcall ih =>
    obtain ⟨w1, U, e1, hwf1, hcap, hperm, _⟩ := UnloadFarAreas_spec _ hr.wf pos
    rw [e1] at hcall
    simp only [Option.some.injEq, Prod.mk.injEq] at hcall
    rw [← hcall.1, ← hcall.2]
    exact hunload _ _ _ pos U hr.wf ih hwf1 hcap hperm

/-! ## Determinism of the height generation -/

theorem HeightGrid.ext_get (h1 h2 : HeightGrid)
    (h : ∀ x y, x < CHUNK_SIZE → y < CHUNK_SIZE → h1.get x y = h2.get x y) : h1 = h2 := by
  obtain ⟨rows1, len1, row1⟩ := h1
  obtain ⟨rows2, len2, row2⟩ := h2
  have hrows : rows1 = rows2 := by
    apply List.ext_getElem (by rw [len1, len2])
    intro x hx1 hx2
    have hr1 : rows1[x].length = CHUNK_SIZE := row1 _ (List.getElem_mem _)
    have hr2 : rows2[x].length = CHUNK_SIZE := row2 _ (List.getElem_mem _)
    apply List.ext_getElem (by rw [hr1, hr2])
    intro y hy1 hy2
    have := h x y (by rw [← len1]; exact hx1) (by rw [← hr1]; exact hy1)
    simpa [HeightGrid.get, List.getD_eq_getElem?_getD, List.getElem?_eq_getElem hx1,
      List.getElem?_eq_getElem hx2, List.getElem?_eq_getElem hy1,
      List.getElem?_eq_getElem hy2] using this
  subst hrows
  rfl

theorem CalcHeightChunkNode_congr (noise : Int → ℚ → ℚ → ℚ) (g1 g2 : Globals)
    (n1 n2 : ChunkNode) (X Y : ℚ) (min max : Int) (hseed : g1.seed = g2.seed) :
    CalcHeightChunkNode noise g1 n1 X Y min max = CalcHeightChunkNode noise g2 n2 X Y min max := by
  simp only [CalcHeightChunkNode, hseed]

theorem LoadChunkNode_heights_congr (noise : Int → ℚ → ℚ → ℚ) (g1 g2 : Globals)
    (n1 n2 : ChunkNode) (hseed : g1.seed = g2.seed) (hloc : n1.location = n2.location) :
    (LoadChunkNode noise g1 n1).heights = (LoadChunkNode noise g2 n2).heights := by
  apply HeightGrid.ext_get
  intro x y hx hy
  rw [LoadChunkNode_heights noise g1 n1 x y hx hy, LoadChunkNode_heights noise g2 n2 x y hx hy,
    hloc]
  exact CalcHeightChunkNode_congr noise g1 g2 n1 n2 _ _ 0 2 hseed

theorem builtArea_congr (noise : Int → ℚ → ℚ → ℚ) (g1 g2 : Globals) (location : Vector2)
    (hseed : g1.seed = g2.seed) : builtArea noise g1 location = builtArea noise g2 location := by
  obtain ⟨seed1, log1⟩ := g1
  obtain ⟨seed2, log2⟩ := g2
  simp only at hseed
  subst hseed
  rfl

/-- Every tile resident in a reachable world is the tile built from the seed and the
location alone. -/
theorem Reachable.residents_built {noise : Int → ℚ → ℚ → ℚ} {ok : Vector2 → Prop}
    {world : InfinityWorld} {g : Globals} (h : Reachable noise ok world g) :
    ∀ a ∈ world.residents, a = builtArea noise ⟨g.seed, []⟩ a.location := by
  refine Reachable.step_induction
    (fun world g => ∀ a ∈ world.residents, a = builtArea noise ⟨g.seed, []⟩ a.location)
    ?_ ?_ ?_ h
  · intro g seed a ha
    simp [CreateInfinityWorld, InfinityWorld.residents] at ha
  · intro world world1 g location _ hP _ _ hres _ _ a ha
    rw [hres] at ha
    rcases List.mem_append.mp ha with ha | ha
    · exact hP a ha
    · rw [List.mem_singleton.mp ha]
      exact builtArea_congr noise g ⟨g.seed, []⟩ location rfl
  · intro world world1 g pos U _ hP _ _ hperm a ha
    rw [foldl_UnloadArea_seed]
    exact hP a (List.mem_of_mem_filter (hperm.subset ha))


theorem sampleWorldSingle_reachable (ok : Vector2 → Prop)
    (h : ∀ a b : Int, ok ⟨(a : ℚ), (b : ℚ)⟩) :
    Reachable sampleNoise ok sampleWorldSingle sampleGlobals := by
  have hwf : (CreateInfinityWorld ⟨0, []⟩ 12456).1.WF := wf_of_layout [] [] 0 0 rfl rfl
  have hstep : LoadOrGetAreaByLocation sampleNoise sampleGlobals
      (CreateInfinityWorld ⟨0, []⟩ 12456).1 ⟨((-1 : Int) : ℚ), ((-1 : Int) : ℚ)⟩ =
      some (sampleArea (-1) (-1), sampleWorldSingle) := by
    simp only [LoadOrGetAreaByLocation, GetAreaByLocalPos_eq hwf]
    rfl
  exact Reachable.load _ _ _ (Reachable.create ⟨0, []⟩ 12456) (h (-1) (-1)) hstep

/-- C13: height generation is deterministic and depends only on the seed and the
coordinate.  With the same noise function and the same seed, `CalcHeightChunkNode` at the
same `X`, `Y`, `min`, `max` returns the same value whatever the node and the rest of the
globals; `LoadChunkNode` on two nodes with the same location yields the same height grid;
and two tiles with the same location, resident in two reachable worlds (whatever was
loaded and evicted on the way to each), have the same height grid: they are equal. -/
theorem height_generation_deterministic (noise : Int → ℚ → ℚ → ℚ) (g1 g2 : Globals)
    (n1 n2 : ChunkNode) (X Y : ℚ) (min max : Int) (world1 world2 : InfinityWorld)
    (a1 a2 : Area) (hseed : g1.seed = g2.seed) (hloc : n1.location = n2.location)
    (hr1 : Reachable noise (fun _ => True) world1 g1)
    (hr2 : Reachable noise (fun _ => True) world2 g2)
    (ha1 : a1 ∈ world1.residents) (ha2 : a2 ∈ world2.residents)
    (hsame : a1.location = a2.location) :
    CalcHeightChunkNode noise g1 n1 X Y min max =
      CalcHeightChunkNode noise g2 n2 X Y min max ∧
    (LoadChunkNode noise g1 n1).heights = (LoadChunkNode noise g2 n2).heights ∧
    a1.chunkNode.heights = a2.chunkNode.heights ∧ a1 = a2 := by
  have heq : a1 = a2 := by
    rw [hr1.residents_built a1 ha1, hr2.residents_built a2 ha2, hsame]
    exact builtArea_congr noise _ _ _ hseed
  exact ⟨CalcHeightChunkNode_congr noise g1 g2 n1 n2 X Y min max hseed,
    LoadChunkNode_heights_congr noise g1 g2 n1 n2 hseed hloc, by rw [heq], heq⟩

/-- C13, worked instance: the tile at (-1, -1), resident in the sample world (loaded third,
after two other tiles) and in the world where it is the only tile loaded. -/
theorem height_generation_deterministic_witness :
    (sampleGlobals.seed = sampleGlobals.seed ∧
      (CreateChunkNode ⟨3, -2⟩).location =
        ({ CreateChunkNode ⟨3, -2⟩ with isLoaded := true } : ChunkNode).location ∧
      Reachable sampleNoise (fun _ => True) sampleWorld sampleGlobals ∧
      Reachable sampleNoise (fun _ => True) sampleWorldSingle sampleGlobals ∧
      sampleArea (-1) (-1) ∈ sampleWorld.residents ∧
      sampleArea (-1) (-1) ∈ sampleWorldSingle.residents ∧
      (sampleArea (-1) (-1)).location = (sampleArea (-1) (-1)).location) ∧
    (CalcHeightChunkNode sampleNoise sampleGlobals (CreateChunkNode ⟨3, -2⟩) 250 (-40) 0 2 =
      CalcHeightChunkNode sampleNoise sampleGlobals
        { CreateChunkNode ⟨3, -2⟩ with isLoaded := true } 250 (-40) 0 2 ∧
    (LoadChunkNode sampleNoise sampleGlobals (CreateChunkNode ⟨3, -2⟩)).heights =
      (LoadChunkNode sampleNoise sampleGlobals
        { CreateChunkNode ⟨3, -2⟩ with isLoaded := true }).heights ∧
    (sampleArea (-1) (-1)).chunkNode.heights = (sampleArea (-1) (-1)).chunkNode.heights ∧
    sampleArea (-1) (-1) = sampleArea (-1) (-1)) :=
  have hm1 : sampleArea (-1) (-1) ∈ sampleWorld.residents := by
    rw [sampleWorld_residents]
    simp
  have hm2 : sampleArea (-1) (-1) ∈ sampleWorldSingle.residents := by
    have : sampleWorldSingle.residents = [sampleArea (-1) (-1)] := rfl
    rw [this]
    simp
  ⟨⟨rfl, rfl, sampleWorld_reachable _ (fun _ _ => trivial),
      sampleWorldSingle_reachable _ (fun _ _ => trivial), hm1, hm2, rfl⟩,
    height_generation_deterministic sampleNoise sampleGlobals sampleGlobals
      (CreateChunkNode ⟨3, -2⟩) { CreateChunkNode ⟨3, -2⟩ with isLoaded := true } 250 (-40) 0 2
      sampleWorld sampleWorldSingle (sampleArea (-1) (-1)) (sampleArea (-1) (-1)) rfl rfl
      (sampleWorld_reachable _ (fun _ _ => trivial))
      (sampleWorldSingle_reachable _ (fun _ _ => trivial)) hm1 hm2 rfl⟩

/-! ## Capacity of the slot array -/

theorem Reachable.capacity_form {noise : Int → ℚ → ℚ → ℚ} {ok : Vector2 → Prop}
    {world : InfinityWorld} {g : Globals} (h : Reachable noise ok world g) :
    world.areaCapacity = 0 ∨ ∃ k : Nat, world.areaCapacity = 8 * 2 ^ k := by
  refine Reachable.step_induction
    (fun world _ => world.areaCapacity = 0 ∨ ∃ k : Nat, world.areaCapacity = 8 * 2 ^ k)
    ?_ ?_ ?_ h
  · intro g seed
    exact Or.inl rfl
  · intro world world1 g location _ hP _ _ _ _ hcap
    rw [hcap]
    by_cases hfull : world.areaCount ≥ world.areaCapacity
    · rw [if_pos hfull]
      rcases hP with h0 | ⟨k, hk⟩
      · rw [if_pos h0]
        exact Or.inr ⟨0, by norm_num⟩
      · have hne : ¬ world.areaCapacity = 0 := by
          rw [hk]
          positivity
        rw [if_neg hne, hk]
        exact Or.inr ⟨k + 1, by ring⟩
    · rw [if_neg hfull]
      exact hP
  · intro world world1 g pos U _ hP _ hcap _
    rw [hcap]
    exact hP

/-- C18: in every world reachable from `CreateInfinityWorld` by calls of
`LoadOrGetAreaByLocation` and `UnloadFarAreas`, `areaCount <= areaCapacity`, `areaCapacity`
is the number of allocated slots and is 0 or `8 * 2^k`; and a further
`LoadOrGetAreaByLocation` at any location returns: either it changes nothing, or it has
written the new area at index `areaCount`, strictly below the capacity it leaves (grown
or not), which is again the number of allocated slots. -/
theorem capacity_invariant (noise : Int → ℚ → ℚ → ℚ) (world : InfinityWorld) (g : Globals)
    (location : Vector2) (h : Reachable noise (fun _ => True) world g) :
    world.areaCount ≤ world.areaCapacity ∧
    world.areaCapacity = world.areas.length ∧
    (world.areaCapacity = 0 ∨ ∃ k : Nat, world.areaCapacity = 8 * 2 ^ k) ∧
    ∃ (area : Area) (world1 : InfinityWorld),
      LoadOrGetAreaByLocation noise g world location = some (area, world1) ∧
      (world1 = world ∨
        (world.areaCount < world1.areaCapacity ∧
          world1.areaCapacity = world1.areas.length ∧
          world1.areas[world.areaCount]? = some (some area) ∧
          world1.areaCount = world.areaCount + 1 ∧
          (world1.areaCapacity = world.areaCapacity ∨ world1.areaCapacity = 8 ∨
            world1.areaCapacity = world.areaCapacity * 2))) := by
  have hwf := h.wf
  refine ⟨hwf.2.1, hwf.1, h.capacity_form, ?_⟩
  cases hfind : world.residents.find? (sameCell location) with
  | some a =>
    exact ⟨a, world, LoadOrGetAreaByLocation_hit noise g hwf location a hfind, Or.inl rfl⟩
  | none =>
    obtain ⟨world1, e1, hwf1, hres, hcount, hcap⟩ :=
      LoadOrGetAreaByLocation_miss noise g hwf location hfind
    refine ⟨_, world1, e1, Or.inr ⟨?_, hwf1.1, ?_, hcount, ?_⟩⟩
    · have := hwf1.2.1
      omega
    · obtain ⟨rest, e⟩ := hwf.layout
      obtain ⟨rest1, e2⟩ := hwf1.layout
      have hlen : world.areaCount = world.residents.length := by
        conv_lhs => rw [e]
      have hareas : world1.areas =
          (world.residents ++ builtArea noise g location :: []).map some ++ rest1 := by
        conv_lhs => rw [e2]
        rw [hres]
      rw [hareas, hlen]
      exact getElem?_layout world.residents [] _ rest1
    · rw [hcap]
      by_cases hfull : world.areaCount ≥ world.areaCapacity
      · rw [if_pos hfull]
        by_cases h0 : world.areaCapacity = 0
        · rw [if_pos h0]
          exact Or.inr (Or.inl rfl)
        · rw [if_neg h0]
          exact Or.inr (Or.inr rfl)
      · rw [if_neg hfull]
        exact Or.inl rfl

/-- C18, worked instance: the sample world and a load at (4, 5). -/
theorem capacity_invariant_witness :
    Reachable sampleNoise (fun _ => True) sampleWorld sampleGlobals ∧
    (sampleWorld.areaCount ≤ sampleWorld.areaCapacity ∧
    sampleWorld.areaCapacity = sampleWorld.areas.length ∧
    (sampleWorld.areaCapacity = 0 ∨ ∃ k : Nat, sampleWorld.areaCapacity = 8 * 2 ^ k) ∧
    ∃ (area : Area) (world1 : InfinityWorld),
      LoadOrGetAreaByLocation sampleNoise sampleGlobals sampleWorld ⟨4, 5⟩ =
        some (area, world1) ∧
      (world1 = sampleWorld ∨
        (sampleWorld.areaCount < world1.areaCapacity ∧
          world1.areaCapacity = world1.areas.length ∧
          world1.areas[sampleWorld.areaCount]? = some (some area) ∧
          world1.areaCount = sampleWorld.areaCount + 1 ∧
          (world1.areaCapacity = sampleWorld.areaCapacity ∨ world1.areaCapacity = 8 ∨
            world1.areaCapacity = sampleWorld.areaCapacity * 2)))) :=
  ⟨sampleWorld_reachable _ (fun _ _ => trivial),
    capacity_invariant sampleNoise sampleWorld sampleGlobals ⟨4, 5⟩
      (sampleWorld_reachable _ (fun _ _ => trivial))⟩


/-! ## The end-to-end scenario -/

theorem UnloadFarAreas.coordinate_zero : UnloadFarAreas.coordinate 0 = -1 := by
  rw [UnloadFarAreas.coordinate_eq_iff]
  norm_num

theorem UnloadFarAreas.currentLocation_origin (y : ℚ) :
    UnloadFarAreas.currentLocation ⟨0, y, 0⟩ = ⟨((-1 : Int) : ℚ), ((-1 : Int) : ℚ)⟩ := by
  simp only [UnloadFarAreas.currentLocation, UnloadFarAreas.coordinate_zero]

theorem mem_block3x3_origin {c : Vector2} (h : c ∈ block3x3 0 0) :
    c = ⟨-1, -1⟩ ∨ c = ⟨-1, 0⟩ ∨ c = ⟨-1, 1⟩ ∨ c = ⟨0, -1⟩ ∨ c = ⟨0, 0⟩ ∨ c = ⟨0, 1⟩ ∨
      c = ⟨1, -1⟩ ∨ c = ⟨1, 0⟩ ∨ c = ⟨1, 1⟩ := by
  simpa [block3x3] using h

theorem block_sqr_le (c : Vector2) (hc : c ∈ block3x3 0 0) :
    Vector2DistanceSqr (UnloadFarAreas.currentLocation ⟨0, 10, 0⟩) c ≤ 8 := by
  rw [UnloadFarAreas.currentLocation_origin]
  rcases mem_block3x3_origin hc with h | h | h | h | h | h | h | h | h <;>
    (subst h; simp only [Vector2DistanceSqr]; norm_num)

theorem block_near_origin (c : Vector2) (hc : c ∈ block3x3 0 0) :
    Vector2DistanceGt (UnloadFarAreas.currentLocation ⟨0, 10, 0⟩) c
      FAR_AREA_LIMIT_DISTANCE = false := by
  rw [Vector2DistanceGt_limit]
  simp only [decide_eq_false_iff_not, not_lt]
  linarith [block_sqr_le c hc]

/-- C14, as stated, fails: the tile coordinate computed for position (0, 10, 0) is
(-1, -1), and the tile (1, 1) of the block is farther than 1 from it, in the Euclidean
distance and along each axis. -/
theorem block_within_one_fails :
    (¬ ∀ c ∈ block3x3 0 0,
      Real.sqrt ((Vector2DistanceSqr (UnloadFarAreas.currentLocation ⟨0, 10, 0⟩) c : ℚ) : ℝ)
        ≤ 1) ∧
    (¬ ∀ c ∈ block3x3 0 0,
      max |c.x - (UnloadFarAreas.currentLocation ⟨0, 10, 0⟩).x|
        |c.y - (UnloadFarAreas.currentLocation ⟨0, 10, 0⟩).y| ≤ 1) := by
  have hmem : (⟨1, 1⟩ : Vector2) ∈ block3x3 0 0 := by simp [block3x3]
  constructor
  · intro hall
    have h1 := hall ⟨1, 1⟩ hmem
    have h2 : Vector2DistanceGt (UnloadFarAreas.currentLocation ⟨0, 10, 0⟩) ⟨1, 1⟩ 1 = true := by
      rw [UnloadFarAreas.currentLocation_origin]
      simp only [Vector2DistanceGt, Vector2DistanceSqr, decide_eq_true_eq]
      norm_num
    have h3 := (Vector2DistanceGt_iff_sqrt _ _ _).mp h2
    simp only [Nat.cast_one] at h3
    exact absurd h1 (not_le.mpr h3)
  · intro hall
    have h1 := hall ⟨1, 1⟩ hmem
    rw [UnloadFarAreas.currentLocation_origin] at h1
    norm_num at h1

/-- C14, amended: the tile coordinate that `UnloadFarAreas` computes for position
(0, 10, 0) is (-1, -1), and every one of the 9 tiles of the 3x3 block centred on (0, 0) is
within squared distance 8 of it (distance at most `sqrt 8`, at most 2 along each axis),
hence not farther than `FAR_AREA_LIMIT_DISTANCE` = 5: the far test of the loop is false
on each. -/
theorem block_within_far_limit :
    UnloadFarAreas.currentLocation ⟨0, 10, 0⟩ = ⟨-1, -1⟩ ∧
    (block3x3 0 0).length = 9 ∧
    ∀ c ∈ block3x3 0 0,
      Vector2DistanceSqr (UnloadFarAreas.currentLocation ⟨0, 10, 0⟩) c ≤ 8 ∧
      |c.x - (UnloadFarAreas.currentLocation ⟨0, 10, 0⟩).x| ≤ 2 ∧
      |c.y - (UnloadFarAreas.currentLocation ⟨0, 10, 0⟩).y| ≤ 2 ∧
      Real.sqrt ((Vector2DistanceSqr (UnloadFarAreas.currentLocation ⟨0, 10, 0⟩) c : ℚ) : ℝ)
        ≤ (FAR_AREA_LIMIT_DISTANCE : ℝ) ∧
      Vector2DistanceGt (UnloadFarAreas.currentLocation ⟨0, 10, 0⟩) c
        FAR_AREA_LIMIT_DISTANCE = false := by
  have hcur : UnloadFarAreas.currentLocation ⟨0, 10, 0⟩ = ⟨-1, -1⟩ := by
    rw [UnloadFarAreas.currentLocation_origin]
    norm_num
  refine ⟨hcur, rfl, ?_⟩
  intro c hc
  have hsq := block_sqr_le c hc
  have hnear := block_near_origin c hc
  refine ⟨hsq, ?_, ?_, ?_, hnear⟩
  · rw [hcur]
    rcases mem_block3x3_origin hc with h | h | h | h | h | h | h | h | h <;>
      (subst h; norm_num)
  · rw [hcur]
    rcases mem_block3x3_origin hc with h | h | h | h | h | h | h | h | h <;>
      (subst h; norm_num)
  · apply (Vector2DistanceGt_false_iff_sqrt _ _ _).mp
    rw [hnear]
    rfl


theorem loadOrGetEach_fresh (noise : Int → ℚ → ℚ → ℚ) (g : Globals) (cs : List Vector2) :
    ∀ (world : InfinityWorld), world.WF →
      (∀ c ∈ cs, ∀ a ∈ world.residents, tileCoordinate a.location ≠ tileCoordinate c) →
      cs.Pairwise (fun c d => tileCoordinate c ≠ tileCoordinate d) →
      ∃ world1, loadOrGetEach noise g world cs = some world1 ∧ world1.WF ∧
        world1.residents = world.residents ++ cs.map (builtArea noise g) ∧
        world1.areaCount = world.areaCount + cs.length := by
  induction cs with
  | nil =>
    intro world hwf _ _
    exact ⟨world, rfl, hwf, by simp, rfl⟩
  | cons c cs ih =>
    intro world hwf hfresh hpw
    have hfind := (find?_eq_none_iff_tileCoordinate world.residents c).mpr
      (hfresh c (List.mem_cons_self _ _))
    obtain ⟨w1, e1, hwf1, hres1, hcount1, _⟩ := LoadOrGetAreaByLocation_miss noise g hwf c hfind
    have hpw' := List.pairwise_cons.mp hpw
    have hfresh1 : ∀ d ∈ cs, ∀ a ∈ w1.residents,
        tileCoordinate a.location ≠ tileCoordinate d := by
      intro d hd a ha
      rw [hres1] at ha
      rcases List.mem_append.mp ha with ha | ha
      · exact hfresh d (List.mem_cons_of_mem _ hd) a ha
      · rw [List.mem_singleton.mp ha]
        exact hpw'.1 d hd
    obtain ⟨w2, e2, hwf2, hres2, hcount2⟩ := ih w1 hwf1 hfresh1 hpw'.2
    refine ⟨w2, ?_, hwf2, ?_, ?_⟩
    · simp only [loadOrGetEach, e1]
      exact e2
    · rw [hres2, hres1]
      simp
    · rw [hcount2, hcount1, List.length_cons]
      omega

theorem UnloadFarAreas.keep_layout (currentLocation : Vector2) (mid : List Area) :
    ∀ (pre : List Area) (rest : List (Option Area)) (cap : Nat) (g : Globals),
      (∀ a ∈ mid,
        Vector2DistanceGt currentLocation a.location FAR_AREA_LIMIT_DISTANCE = false) →
      UnloadFarAreas.loop currentLocation g
          ⟨(pre ++ mid).map some ++ rest, (pre ++ mid).length, cap⟩ pre.length =
        some (⟨(pre ++ mid).map some ++ rest, (pre ++ mid).length, cap⟩, g) := by
  induction mid with
  | nil =>
    intro pre rest cap g _
    rw [UnloadFarAreas.loop]
    simp
  | cons a t ih =>
    intro pre rest cap g hnear
    have hlt : pre.length < (pre ++ a :: t).length := by simp
    rw [UnloadFarAreas.loop]
    simp only [hlt, if_true, getElem?_layout, hnear a (List.mem_cons_self _ _)]
    have := ih (pre ++ [a]) rest cap g (fun b hb => hnear b (List.mem_cons_of_mem _ hb))
    simpa using this

/-- When no resident tile is far, `UnloadFarAreas` changes neither the world nor the
globals. -/
theorem UnloadFarAreas_keeps_all (g : Globals) {world : InfinityWorld} (h : world.WF)
    (pos : Vector3)
    (hnear : ∀ a ∈ world.residents,
      Vector2DistanceGt (UnloadFarAreas.currentLocation pos) a.location
        FAR_AREA_LIMIT_DISTANCE = false) :
    UnloadFarAreas g world pos = some (world, g) := by
  obtain ⟨rest, e⟩ := h.layout
  have := UnloadFarAreas.keep_layout (UnloadFarAreas.currentLocation pos) world.residents []
    rest ((world.residents.map some ++ rest).length) g hnear
  simp only [List.nil_append, List.length_nil] at this
  rw [← e] at this
  exact this

theorem block3x3_pairwise :
    (block3x3 0 0).Pairwise (fun c d => tileCoordinate c ≠ tileCoordinate d) := by
  unfold block3x3
  rw [List.pairwise_map]
  simp only [tileCoordinate_intCast]
  decide

/-- C12: end to end.  The world created with seed 12456 is empty and the lookup for the
tile under position (0, 10, 0) returns NULL in it; after `LoadOrGetAreaByLocation` has
been applied to each of the 9 coordinates of the 3x3 block centred on (0, 0), in any
order, the world holds exactly 9 resident tiles, one per coordinate of the block; and a
following `UnloadFarAreas(world, (0, 10, 0))`, with `FAR_AREA_LIMIT_DISTANCE` = 5, returns
the world unchanged and releases nothing: all 9 tiles are retained. -/
theorem end_to_end_scenario (noise : Int → ℚ → ℚ → ℚ) (g0 : Globals) (cs : List Vector2)
    (hcs : cs.Perm (block3x3 0 0)) :
    (CreateInfinityWorld g0 12456).2.seed = 12456 ∧
    (CreateInfinityWorld g0 12456).1.residents = [] ∧
    GetAreaByLocalPos (CreateInfinityWorld g0 12456).1
        (UnloadFarAreas.currentLocation ⟨0, 10, 0⟩) =
      some (none, (CreateInfinityWorld g0 12456).1) ∧
    ∃ world9 : InfinityWorld,
      loadOrGetEach noise (CreateInfinityWorld g0 12456).2 (CreateInfinityWorld g0 12456).1 cs =
        some world9 ∧
      world9.areaCount = 9 ∧ world9.residents.length = 9 ∧
      world9.residents.map Area.location = cs ∧
      (world9.residents.map Area.location).Perm (block3x3 0 0) ∧
      FAR_AREA_LIMIT_DISTANCE = 5 ∧
      UnloadFarAreas (CreateInfinityWorld g0 12456).2 world9 ⟨0, 10, 0⟩ =
        some (world9, (CreateInfinityWorld g0 12456).2) := by
  have hwf0 : (CreateInfinityWorld g0 12456).1.WF := wf_of_layout [] [] 0 0 rfl rfl
  have hres0 : (CreateInfinityWorld g0 12456).1.residents = [] := rfl
  have hpw : cs.Pairwise (fun c d => tileCoordinate c ≠ tileCoordinate d) :=
    (hcs.pairwise_iff (fun hab e => hab e.symm)).mpr block3x3_pairwise
  obtain ⟨world9, e9, hwf9, hres9, hcount9⟩ :=
    loadOrGetEach_fresh noise (CreateInfinityWorld g0 12456).2 cs
      (CreateInfinityWorld g0 12456).1 hwf0
      (fun c _ a ha => by rw [hres0] at ha; simp at ha) hpw
  rw [hres0, List.nil_append] at hres9
  have hlen : cs.length = 9 := hcs.length_eq
  have hloc : world9.residents.map Area.location = cs := by
    rw [hres9, List.map_map]
    exact List.map_id _
  refine ⟨rfl, hres0, ?_, world9, e9, ?_, ?_, hloc, ?_, rfl, ?_⟩
  · rw [GetAreaByLocalPos_eq hwf0, hres0]
    rfl
  · rw [hcount9, hlen]
    rfl
  · rw [hres9, List.length_map, hlen]
  · rw [hloc]
    exact hcs
  · apply UnloadFarAreas_keeps_all _ hwf9
    intro a ha
    have hmem : a.location ∈ block3x3 0 0 := by
      apply hcs.subset
      rw [← hloc]
      exact List.mem_map_of_mem _ ha
    exact (block_near_origin a.location hmem)

/-- C12, worked instance: the block loaded row by row, from empty globals. -/
theorem end_to_end_scenario_witness :
    (block3x3 0 0).Perm (block3x3 0 0) ∧
    ((CreateInfinityWorld ⟨0, []⟩ 12456).2.seed = 12456 ∧
    (CreateInfinityWorld ⟨0, []⟩ 12456).1.residents = [] ∧
    GetAreaByLocalPos (CreateInfinityWorld ⟨0, []⟩ 12456).1
        (UnloadFarAreas.currentLocation ⟨0, 10, 0⟩) =
      some (none, (CreateInfinityWorld ⟨0, []⟩ 12456).1) ∧
    ∃ world9 : InfinityWorld,
      loadOrGetEach sampleNoise (CreateInfinityWorld ⟨0, []⟩ 12456).2
          (CreateInfinityWorld ⟨0, []⟩ 12456).1 (block3x3 0 0) = some world9 ∧
      world9.areaCount = 9 ∧ world9.residents.length = 9 ∧
      world9.residents.map Area.location = block3x3 0 0 ∧
      (world9.residents.map Area.location).Perm (block3x3 0 0) ∧
      FAR_AREA_LIMIT_DISTANCE = 5 ∧
      UnloadFarAreas (CreateInfinityWorld ⟨0, []⟩ 12456).2 world9 ⟨0, 10, 0⟩ =
        some (world9, (CreateInfinityWorld ⟨0, []⟩ 12456).2)) :=
  ⟨List.Perm.refl _, end_to_end_scenario sampleNoise ⟨0, []⟩ (block3x3 0 0) (List.Perm.refl _)⟩


/-! ## The iterations of the loop of `UnloadFarAreas` -/

/-- The loop is its body, repeated while `i < areaCount`. -/
theorem UnloadFarAreas.loop_unfold (currentLocation : Vector2) (g : Globals)
    (world : InfinityWorld) (i : Nat) :
    UnloadFarAreas.loop currentLocation g world i =
      if i < world.areaCount then
        match UnloadFarAreas.body currentLocation ⟨g, world, i⟩ with
        | some s => UnloadFarAreas.loop currentLocation s.g s.world s.i
        | none => none
      else some (world, g) := by
  rw [UnloadFarAreas.loop]
  by_cases hlt : i < world.areaCount
  · simp only [hlt, if_true, UnloadFarAreas.body]
    split
    · split
      · split <;> simp_all
      · simp_all
    · simp_all
  · simp only [hlt, if_false]


/-- An iteration either increments `i` or decrements `areaCount`. -/
theorem UnloadFarAreas.body_step (currentLocation : Vector2) (s s1 : UnloadFarAreas.LoopState)
    (h : UnloadFarAreas.body currentLocation s = some s1) :
    (s1.i = s.i + 1 ∧ s1.world.areaCount = s.world.areaCount) ∨
      (s1.i = s.i ∧ s1.world.areaCount = s.world.areaCount - 1) := by
  unfold UnloadFarAreas.body at h
  split at h
  · split at h
    · dsimp only at h
      split at h
      · simp only [Option.some.injEq] at h
        rw [← h]
        exact Or.inr ⟨rfl, rfl⟩
      · exact absurd h (by simp)
    · simp only [Option.some.injEq] at h
      rw [← h]
      exact Or.inl ⟨rfl, rfl⟩
  · exact absurd h (by simp)

theorem UnloadFarAreas.iterations_succ (currentLocation : Vector2) (n : Nat) :
    ∀ s : UnloadFarAreas.LoopState,
      UnloadFarAreas.iterations currentLocation (n + 1) s =
        match UnloadFarAreas.iterations currentLocation n s with
        | some s1 =>
          if s1.i < s1.world.areaCount then UnloadFarAreas.body currentLocation s1 else none
        | none => none := by
  induction n with
  | zero =>
    intro s
    simp only [UnloadFarAreas.iterations]
    split
    · cases UnloadFarAreas.body currentLocation s <;> rfl
    · rfl
  | succ n ih =>
    intro s
    rw [UnloadFarAreas.iterations]
    by_cases hlt : s.i < s.world.areaCount
    · simp only [hlt, if_true]
      cases hb : UnloadFarAreas.body currentLocation s with
      | none => simp [UnloadFarAreas.iterations, hlt, hb]
      | some s1 =>
        simp only [ih s1]
        conv_rhs => rw [UnloadFarAreas.iterations]
        simp only [hlt, if_true, hb]
    · simp only [hlt, if_false]
      conv_rhs => rw [UnloadFarAreas.iterations]
      simp only [hlt, if_false]

theorem UnloadFarAreas.body_layout (currentLocation : Vector2) (pre t : List Area) (a : Area)
    (rest : List (Option Area)) (cap : Nat) (g : Globals) :
    ∃ (pre1 mid1 : List Area) (rest1 : List (Option Area)) (g1 : Globals),
      UnloadFarAreas.body currentLocation
          ⟨g, ⟨(pre ++ a :: t).map some ++ rest, (pre ++ a :: t).length, cap⟩, pre.length⟩ =
        some ⟨g1, ⟨(pre1 ++ mid1).map some ++ rest1, (pre1 ++ mid1).length, cap⟩,
          pre1.length⟩ ∧
      mid1.length = t.length := by
  unfold UnloadFarAreas.body
  simp only [getElem?_layout]
  by_cases hfar : Vector2DistanceGt currentLocation a.location FAR_AREA_LIMIT_DISTANCE = true
  · simp only [hfar, if_true]
    rcases List.eq_nil_or_concat t with rfl | ⟨t1, b, hcat⟩
    · refine ⟨pre, [],
        some (UnloadArea g ⟨(pre ++ [a]).map some ++ rest, (pre ++ [a]).length, cap⟩ a).1 ::
          rest,
        (UnloadArea g ⟨(pre ++ [a]).map some ++ rest, (pre ++ [a]).length, cap⟩ a).2, ?_, rfl⟩
      have hidx : (pre ++ [a]).length - 1 = pre.length := by simp
      simp only [set_layout, hidx, getElem?_layout]
      simp
    · rw [List.concat_eq_append] at hcat
      subst hcat
      refine ⟨pre, b :: t1, some b :: rest,
        (UnloadArea g ⟨(pre ++ a :: (t1 ++ [b])).map some ++ rest,
          (pre ++ a :: (t1 ++ [b])).length, cap⟩ a).2, ?_, by simp⟩
      have hidx : (pre ++ a :: (t1 ++ [b])).length - 1 = (pre ++ a :: t1).length := by
        simp
      have e1 : pre ++ a :: (t1 ++ [b]) = (pre ++ a :: t1) ++ b :: [] := by simp
      have hget1 : ∀ a1 : Area,
          ((pre ++ a1 :: (t1 ++ [b])).map some ++ rest)[(pre ++ a :: t1).length]? =
            some (some b) := by
        intro a1
        have e2 : pre ++ a1 :: (t1 ++ [b]) = (pre ++ a1 :: t1) ++ b :: [] := by simp
        have e3 : (pre ++ a :: t1).length = (pre ++ a1 :: t1).length := by simp
        rw [e2, e3]
        exact getElem?_layout (pre ++ a1 :: t1) [] b rest
      simp only [set_layout, hidx, hget1]
      simp
  · have hnear : Vector2DistanceGt currentLocation a.location FAR_AREA_LIMIT_DISTANCE = false := by
      simpa using hfar
    simp only [hnear]
    refine ⟨pre ++ [a], t, rest, g, ?_, rfl⟩
    simp

theorem UnloadFarAreas.iterations_layout (currentLocation : Vector2) (n : Nat) :
    ∀ (pre mid : List Area) (rest : List (Option Area)) (cap : Nat) (g : Globals),
      mid.length = n →
      ∃ s : UnloadFarAreas.LoopState,
        UnloadFarAreas.iterations currentLocation n
            ⟨g, ⟨(pre ++ mid).map some ++ rest, (pre ++ mid).length, cap⟩, pre.length⟩ =
          some s ∧
        s.i = s.world.areaCount ∧
        UnloadFarAreas.loop currentLocation g
            ⟨(pre ++ mid).map some ++ rest, (pre ++ mid).length, cap⟩ pre.length =
          some (s.world, s.g) := by
  induction n with
  | zero =>
    intro pre mid rest cap g hn
    have hmid : mid = [] := List.eq_nil_of_length_eq_zero hn
    subst hmid
    refine ⟨_, rfl, by simp, ?_⟩
    rw [UnloadFarAreas.loop]
    simp
  | succ n ih =>
    intro pre mid rest cap g hn
    cases mid with
    | nil => simp at hn
    | cons a t =>
      have ht : t.length = n := by simpa using hn
      have hlt : pre.length < (pre ++ a :: t).length := by simp
      obtain ⟨pre1, mid1, rest1, g1, hbody, hlen⟩ :=
        UnloadFarAreas.body_layout currentLocation pre t a rest cap g
      obtain ⟨s, hs1, hs2, hs3⟩ := ih pre1 mid1 rest1 cap g1 (hlen.trans ht)
      refine ⟨s, ?_, hs2, ?_⟩
      · rw [UnloadFarAreas.iterations]
        simp only [hlt, if_true, hbody]
        exact hs1
      · rw [UnloadFarAreas.loop_unfold]
        simp only [hlt, if_true, hbody]
        exact hs3

/-- C17: on a well-formed world the loop of `UnloadFarAreas` performs exactly as many
iterations as `areaCount` holds at entry: that many iterations run, each entered with
`i < areaCount`; after them `i` equals the final `areaCount`, so the loop test fails and
there is no further iteration; the state then is what `UnloadFarAreas` returns.  Each
iteration either increments `i` or decrements `areaCount`, so `areaCount - i` strictly
decreases. -/
theorem unload_far_iteration_count (g : Globals) (world : InfinityWorld) (pos : Vector3)
    (h : world.WF) :
    ∃ s : UnloadFarAreas.LoopState,
      UnloadFarAreas.iterations (UnloadFarAreas.currentLocation pos) world.areaCount
        ⟨g, world, 0⟩ = some s ∧
      s.i = s.world.areaCount ∧
      UnloadFarAreas.iterations (UnloadFarAreas.currentLocation pos) (world.areaCount + 1)
        ⟨g, world, 0⟩ = none ∧
      UnloadFarAreas g world pos = some (s.world, s.g) ∧
      (∀ s1 s2 : UnloadFarAreas.LoopState, s1.i < s1.world.areaCount →
        UnloadFarAreas.body (UnloadFarAreas.currentLocation pos) s1 = some s2 →
        ((s2.i = s1.i + 1 ∧ s2.world.areaCount = s1.world.areaCount) ∨
          (s2.i = s1.i ∧ s2.world.areaCount + 1 = s1.world.areaCount)) ∧
        s2.world.areaCount - s2.i < s1.world.areaCount - s1.i) ∧
      (∀ (g1 : Globals) (world1 : InfinityWorld) (i : Nat),
        UnloadFarAreas.loop (UnloadFarAreas.currentLocation pos) g1 world1 i =
          if i < world1.areaCount then
            match UnloadFarAreas.body (UnloadFarAreas.currentLocation pos) ⟨g1, world1, i⟩ with
            | some s => UnloadFarAreas.loop (UnloadFarAreas.currentLocation pos) s.g s.world s.i
            | none => none
          else some (world1, g1)) := by
  obtain ⟨rest, e⟩ := h.layout
  obtain ⟨s, hs1, hs2, hs3⟩ :=
    UnloadFarAreas.iterations_layout (UnloadFarAreas.currentLocation pos)
      world.residents.length [] world.residents rest
      ((world.residents.map some ++ rest).length) g rfl
  simp only [List.nil_append, List.length_nil] at hs1 hs3
  rw [← e] at hs1 hs3
  have hcount : world.residents.length = world.areaCount := by
    conv_rhs => rw [e]
  rw [hcount] at hs1
  refine ⟨s, hs1, hs2, ?_, hs3, ?_, UnloadFarAreas.loop_unfold _⟩
  · rw [UnloadFarAreas.iterations_succ, hs1]
    simp [hs2]
  · intro s1 s2 hlt hbody
    rcases UnloadFarAreas.body_step _ s1 s2 hbody with ⟨h1, h2⟩ | ⟨h1, h2⟩
    · exact ⟨Or.inl ⟨h1, h2⟩, by omega⟩
    · exact ⟨Or.inr ⟨h1, by omega⟩, by omega⟩

/-- C17, worked instance: the sample world (three tiles), evicted around (0, 10, 0). -/
theorem unload_far_iteration_count_witness :
    sampleWorld.WF ∧
    ∃ s : UnloadFarAreas.LoopState,
      UnloadFarAreas.iterations (UnloadFarAreas.currentLocation ⟨0, 10, 0⟩)
        sampleWorld.areaCount ⟨sampleGlobals, sampleWorld, 0⟩ = some s ∧
      s.i = s.world.areaCount ∧
      UnloadFarAreas.iterations (UnloadFarAreas.currentLocation ⟨0, 10, 0⟩)
        (sampleWorld.areaCount + 1) ⟨sampleGlobals, sampleWorld, 0⟩ = none ∧
      UnloadFarAreas sampleGlobals sampleWorld ⟨0, 10, 0⟩ = some (s.world, s.g) ∧
      (∀ s1 s2 : UnloadFarAreas.LoopState, s1.i < s1.world.areaCount →
        UnloadFarAreas.body (UnloadFarAreas.currentLocation ⟨0, 10, 0⟩) s1 = some s2 →
        ((s2.i = s1.i + 1 ∧ s2.world.areaCount = s1.world.areaCount) ∨
          (s2.i = s1.i ∧ s2.world.areaCount + 1 = s1.world.areaCount)) ∧
        s2.world.areaCount - s2.i < s1.world.areaCount - s1.i) ∧
      (∀ (g1 : Globals) (world1 : InfinityWorld) (i : Nat),
        UnloadFarAreas.loop (UnloadFarAreas.currentLocation ⟨0, 10, 0⟩) g1 world1 i =
          if i < world1.areaCount then
            match UnloadFarAreas.body (UnloadFarAreas.currentLocation ⟨0, 10, 0⟩)
              ⟨g1, world1, i⟩ with
            | some s =>
              UnloadFarAreas.loop (UnloadFarAreas.currentLocation ⟨0, 10, 0⟩) s.g s.world s.i
            | none => none
          else some (world1, g1)) :=
  ⟨sampleWorld_wf,
    unload_far_iteration_count sampleGlobals sampleWorld ⟨0, 10, 0⟩ sampleWorld_wf⟩

end TerrainGenerator
